import Mathlib

/-!
Verification of the disasm51 core (instruction catalog, operand decoder,
control-flow analyzer, label namer) against its natural-language
specification.  The definitions below are a shallow embedding of
`src/disasm51/instructions.py`, `src/disasm51/codeanalyzer.py` and
`src/disasm51/utils.py`: Python byte strings become `List Nat`, Python
ints become `Int` (with Python's negative-index and masking semantics
made explicit), dictionaries become insertion-ordered association
lists, and code that can raise `IndexError` returns an explicit error
outcome.
-/

set_option maxRecDepth 100000

namespace Disasm51

/-! ## Python-semantics helpers -/

/-- Python sequence indexing `rom[i]`: nonnegative indices from the
front, negative indices wrap from the back, anything else raises
`IndexError` (modelled as `Option.none`). -/
def pyGet (rom : List Nat) (i : Int) : Option Nat :=
  if 0 ≤ i then rom.get? i.toNat
  else if (-i).toNat ≤ rom.length then rom.get? (rom.length - (-i).toNat)
  else Option.none

/-- Python `x & m` for an arbitrary int `x` and a mask `m < 2^16`
(two's-complement semantics for negative `x`). -/
def pyAnd16 (x : Int) (m : Nat) : Nat :=
  (x % 65536).toNat &&& m

/-- Uppercase hex digit. -/
def hexDigit (n : Nat) : Char :=
  if n < 10 then Char.ofNat (48 + n) else Char.ofNat (55 + n)

def natHexAux : Nat → Nat → List Char
  | 0, _ => []
  | _ + 1, 0 => []
  | f + 1, n => natHexAux f (n / 16) ++ [hexDigit (n % 16)]

/-- Uppercase hex rendering of a natural number, no leading zeros. -/
def natHex (n : Nat) : String :=
  if n = 0 then "0" else String.mk (natHexAux (n + 1) n)

def padZero (s : String) (w : Nat) : String :=
  if s.length ≥ w then s else String.mk (List.replicate (w - s.length) '0') ++ s

def padSp (s : String) (w : Nat) : String :=
  if s.length ≥ w then s else String.mk (List.replicate (w - s.length) ' ') ++ s

/-- Python `'%04X' % x` (zero padding goes after the sign). -/
def pyHex04 (x : Int) : String :=
  if 0 ≤ x then padZero (natHex x.toNat) 4 else "-" ++ padZero (natHex (-x).toNat) 3

/-- Python `'%02X' % x`. -/
def pyHex02 (x : Int) : String :=
  if 0 ≤ x then padZero (natHex x.toNat) 2 else "-" ++ padZero (natHex (-x).toNat) 1

/-! ## utils.py -/

/-- `utils.int2hex`: `'%02Xh' % x`, with a leading `0` whenever the
first character is not a digit. -/
def int2hex (x : Int) : String :=
  let s := pyHex02 x ++ "h"
  if s.front.isDigit then s else "0" ++ s

/-- Whether Python's `chr(byte).isprintable()` holds for a byte: the
printable Latin-1 range minus the C1 controls, NBSP and soft hyphen. -/
def pyPrintable (byte : Nat) : Bool :=
  (0x20 ≤ byte && byte ≤ 0x7E) || (0xA1 ≤ byte && byte ≤ 0xFF && byte ≠ 0xAD)

/-- `utils.binary_hint`. -/
def binary_hint (byte : Nat) : String :=
  let s := padSp (toString byte) 3
  let s := if byte ≥ 0x80 then s ++ " " ++ padSp (toString ((byte : Int) - 0x100)) 4 else s
  if pyPrintable byte then s ++ " " ++ "'" ++ String.singleton (Char.ofNat byte) ++ "'" else s

/-- `utils.auto_label`: `'%s_%04X' % (p, address)`. -/
def auto_label (p : String) (address : Int) : String :=
  p ++ "_" ++ pyHex04 address

/-! ## instructions.py -/

inductive ArgType where
  | IMM | DATA | BIT | LABEL | REL | ADDR
deriving DecidableEq, Repr

/-- The `.value` of the Python enum member. -/
def ArgType.value : ArgType → String
  | .IMM => "IMM"
  | .DATA => "DATA"
  | .BIT => "BIT"
  | .LABEL => "LABEL"
  | .REL => "REL"
  | .ADDR => "ADDR"

structure Instruction where
  code : Nat
  length : Nat
  mnemonic : String
  args : List ArgType := []
  jump_out : Bool := false
  no_jump : Bool := false
deriving DecidableEq, Repr

/-- `Instructions.__add`: the duplicate-opcode assertion is modelled by
collapsing the whole table to `Option.none` when it would fire. -/
def addIns (t : Option (List (Nat × Instruction))) (i : Instruction) :
    Option (List (Nat × Instruction)) :=
  match t with
  | Option.none => Option.none
  | some l => if (l.lookup i.code).isSome then Option.none else some (l ++ [(i.code, i)])

/-- The register-class dictionary literal of `Instructions.__init__`,
in its insertion order: `(msb, prefix-text, suffix-text, direct)`. -/
def msbTable : List (Nat × String × String × Bool) :=
  [ (0x00, "inc", "", true)
  , (0x10, "dec", "", true)
  , (0x20, "add A,", "", true)
  , (0x30, "addc A,", "", true)
  , (0x40, "orl A,", "", true)
  , (0x50, "anl A,", "", true)
  , (0x60, "xrl A,", "", true)
  , (0x90, "subb A,", "", true)
  , (0xC0, "xch A,", "", true)
  , (0xD0, "xchd A,", "", false)
  , (0xE0, "mov A,", "", true)
  , (0xF0, "mov", ", A", true) ]

/-- One iteration of the first loop of `Instructions.__init__`. -/
def regClassIns (t : Option (List (Nat × Instruction)))
    (e : Nat × String × String × Bool) : Option (List (Nat × Instruction)) :=
  let (msb, pfx, sfx, direct) := e
  let t := (List.range 2).foldl (fun t reg =>
    addIns t { code := msb ||| (reg + 6), length := 1,
               mnemonic := pfx ++ " @R" ++ toString reg ++ sfx }) t
  if direct then
    (List.range 8).foldl (fun t reg =>
      addIns t { code := msb ||| (reg + 8), length := 1,
                 mnemonic := pfx ++ " R" ++ toString reg ++ sfx }) t
  else t

/-- One iteration of the per-register loop of `Instructions.__init__`. -/
def regIns (t : Option (List (Nat × Instruction))) (reg : Nat) :
    Option (List (Nat × Instruction)) :=
  let t := addIns t { code := 0x78 ||| reg, length := 2,
                      mnemonic := "mov R" ++ toString reg ++ ", #{0}", args := [ArgType.IMM] }
  let t := addIns t { code := 0x88 ||| reg, length := 2,
                      mnemonic := "mov {0}, R" ++ toString reg, args := [ArgType.DATA] }
  let t := addIns t { code := 0xA8 ||| reg, length := 2,
                      mnemonic := "mov R" ++ toString reg ++ ", {0}", args := [ArgType.DATA] }
  let t := addIns t { code := 0xB8 ||| reg, length := 3,
                      mnemonic := "cjne R" ++ toString reg ++ ", #{0}, {1}",
                      args := [ArgType.IMM, ArgType.REL] }
  addIns t { code := 0xD8 ||| reg, length := 2,
             mnemonic := "djnz R" ++ toString reg ++ ", {0}", args := [ArgType.REL] }

/-- One iteration of the `ajmp`/`acall` page loop of `Instructions.__init__`. -/
def addrIns (t : Option (List (Nat × Instruction))) (addr : Nat) :
    Option (List (Nat × Instruction)) :=
  let t := addIns t { code := 0x01 ||| (addr <<< 5), length := 2,
                      mnemonic := "ajmp {0}", args := [ArgType.ADDR], jump_out := true }
  addIns t { code := 0x11 ||| (addr <<< 5), length := 2,
             mnemonic := "acall {0}", args := [ArgType.ADDR] }

set_option maxHeartbeats 2000000 in
/-- The explicit tail of `Instructions.__init__`, in source order. -/
def restIns : List Instruction :=
  [ { code := 0x00, length := 1, mnemonic := "nop" }
  , { code := 0x02, length := 3, mnemonic := "ljmp {0}", args := [ArgType.LABEL], jump_out := true }
  , { code := 0x03, length := 1, mnemonic := "rr A" }
  , { code := 0x04, length := 1, mnemonic := "inc A" }
  , { code := 0x05, length := 2, mnemonic := "inc {0}", args := [ArgType.DATA] }
  , { code := 0x10, length := 3, mnemonic := "jbc {0}, {1}", args := [ArgType.BIT, ArgType.REL] }
  , { code := 0x12, length := 3, mnemonic := "lcall {0}", args := [ArgType.LABEL] }
  , { code := 0x13, length := 1, mnemonic := "rrc A" }
  , { code := 0x14, length := 1, mnemonic := "dec A" }
  , { code := 0x15, length := 2, mnemonic := "dec {0}", args := [ArgType.DATA] }
  , { code := 0x20, length := 3, mnemonic := "jb {0}, {1}", args := [ArgType.BIT, ArgType.REL] }
  , { code := 0x22, length := 1, mnemonic := "ret", jump_out := true }
  , { code := 0x23, length := 1, mnemonic := "rl A" }
  , { code := 0x24, length := 2, mnemonic := "add A, #{0}", args := [ArgType.IMM] }
  , { code := 0x25, length := 2, mnemonic := "add A, {0}", args := [ArgType.DATA] }
  , { code := 0x30, length := 3, mnemonic := "jnb {0}, {1}", args := [ArgType.BIT, ArgType.REL] }
  , { code := 0x32, length := 1, mnemonic := "reti", jump_out := true }
  , { code := 0x33, length := 1, mnemonic := "rlc A" }
  , { code := 0x34, length := 2, mnemonic := "addc A, #{0}", args := [ArgType.IMM] }
  , { code := 0x35, length := 2, mnemonic := "addc A, {0}", args := [ArgType.DATA] }
  , { code := 0x40, length := 2, mnemonic := "jc {0}", args := [ArgType.REL] }
  , { code := 0x42, length := 2, mnemonic := "orl {0}, A", args := [ArgType.DATA] }
  , { code := 0x43, length := 3, mnemonic := "orl {0}, #{1}", args := [ArgType.DATA, ArgType.IMM] }
  , { code := 0x44, length := 2, mnemonic := "orl A, #{0}", args := [ArgType.IMM] }
  , { code := 0x45, length := 2, mnemonic := "orl A, {0}", args := [ArgType.DATA] }
  , { code := 0x50, length := 2, mnemonic := "jnc {0}", args := [ArgType.REL] }
  , { code := 0x52, length := 2, mnemonic := "anl {0}, A", args := [ArgType.DATA] }
  , { code := 0x53, length := 3, mnemonic := "anl {0}, #{1}", args := [ArgType.DATA, ArgType.IMM] }
  , { code := 0x54, length := 2, mnemonic := "anl A, #{0}", args := [ArgType.IMM] }
  , { code := 0x55, length := 2, mnemonic := "anl A, {0}", args := [ArgType.DATA] }
  , { code := 0x60, length := 2, mnemonic := "jz {0}", args := [ArgType.REL] }
  , { code := 0x62, length := 2, mnemonic := "xrl {0}, A", args := [ArgType.DATA] }
  , { code := 0x63, length := 3, mnemonic := "xrl {0}, #{1}", args := [ArgType.DATA, ArgType.IMM] }
  , { code := 0x64, length := 2, mnemonic := "xrl A, #{0}", args := [ArgType.IMM] }
  , { code := 0x65, length := 2, mnemonic := "xrl A, {0}", args := [ArgType.DATA] }
  , { code := 0x70, length := 2, mnemonic := "jnz {0}", args := [ArgType.REL] }
  , { code := 0x72, length := 2, mnemonic := "orl C, {0}", args := [ArgType.BIT] }
  , { code := 0x73, length := 1, mnemonic := "jmp @A + DPTR", jump_out := true }
  , { code := 0x74, length := 2, mnemonic := "mov A, #{0}", args := [ArgType.IMM] }
  , { code := 0x75, length := 3, mnemonic := "mov {0}, #{1}", args := [ArgType.DATA, ArgType.IMM] }
  , { code := 0x76, length := 2, mnemonic := "mov @R0, #{0}", args := [ArgType.IMM] }
  , { code := 0x77, length := 2, mnemonic := "mov @R1, #{0}", args := [ArgType.IMM] }
  , { code := 0x80, length := 2, mnemonic := "sjmp {0}", args := [ArgType.REL], jump_out := true }
  , { code := 0x82, length := 2, mnemonic := "anl C, {0}", args := [ArgType.BIT] }
  , { code := 0x83, length := 1, mnemonic := "movc A, @A + PC" }
  , { code := 0x84, length := 1, mnemonic := "div AB" }
  , { code := 0x85, length := 3, mnemonic := "mov {1}, {0}", args := [ArgType.DATA, ArgType.DATA] }
  , { code := 0x86, length := 2, mnemonic := "mov {0}, @R0", args := [ArgType.DATA] }
  , { code := 0x87, length := 2, mnemonic := "mov {0}, @R1", args := [ArgType.DATA] }
  , { code := 0x90, length := 3, mnemonic := "mov DPTR, #{0}", args := [ArgType.LABEL], no_jump := true }
  , { code := 0x92, length := 2, mnemonic := "mov {0}, C", args := [ArgType.BIT] }
  , { code := 0x93, length := 1, mnemonic := "movc A, @A + DPTR" }
  , { code := 0x94, length := 2, mnemonic := "subb A, #{0}", args := [ArgType.IMM] }
  , { code := 0x95, length := 2, mnemonic := "subb A, {0}", args := [ArgType.DATA] }
  , { code := 0xA0, length := 2, mnemonic := "orl C, /{0}", args := [ArgType.BIT] }
  , { code := 0xA2, length := 2, mnemonic := "mov C, {0}", args := [ArgType.BIT] }
  , { code := 0xA3, length := 1, mnemonic := "inc DPTR" }
  , { code := 0xA4, length := 1, mnemonic := "mul AB" }
  , { code := 0xA5, length := 1, mnemonic := "dec DPTR" }
  , { code := 0xA6, length := 2, mnemonic := "mov @R0, {0}", args := [ArgType.DATA] }
  , { code := 0xA7, length := 2, mnemonic := "mov @R1, {0}", args := [ArgType.DATA] }
  , { code := 0xB0, length := 2, mnemonic := "anl C, /{0}", args := [ArgType.BIT] }
  , { code := 0xB2, length := 2, mnemonic := "cpl {0}", args := [ArgType.BIT] }
  , { code := 0xB3, length := 1, mnemonic := "cpl C" }
  , { code := 0xB4, length := 3, mnemonic := "cjne A, #{0}, {1}", args := [ArgType.IMM, ArgType.REL] }
  , { code := 0xB5, length := 3, mnemonic := "cjne A, {0}, {1}", args := [ArgType.DATA, ArgType.REL] }
  , { code := 0xB6, length := 3, mnemonic := "cjne @R0, #{0}, {1}", args := [ArgType.IMM, ArgType.REL] }
  , { code := 0xB7, length := 3, mnemonic := "cjne @R1, #{0}, {1}", args := [ArgType.IMM, ArgType.REL] }
  , { code := 0xC0, length := 2, mnemonic := "push {0}", args := [ArgType.DATA] }
  , { code := 0xC2, length := 2, mnemonic := "clr {0}", args := [ArgType.BIT] }
  , { code := 0xC3, length := 1, mnemonic := "clr C" }
  , { code := 0xC4, length := 1, mnemonic := "swap A" }
  , { code := 0xC5, length := 2, mnemonic := "xch A, {0}", args := [ArgType.DATA] }
  , { code := 0xD0, length := 2, mnemonic := "pop {0}", args := [ArgType.DATA] }
  , { code := 0xD2, length := 2, mnemonic := "setb {0}", args := [ArgType.BIT] }
  , { code := 0xD3, length := 1, mnemonic := "setb C" }
  , { code := 0xD4, length := 1, mnemonic := "da A" }
  , { code := 0xD5, length := 3, mnemonic := "djnz {0}, {1}", args := [ArgType.DATA, ArgType.REL] }
  , { code := 0xE0, length := 1, mnemonic := "movx A, @DPTR" }
  , { code := 0xE2, length := 1, mnemonic := "movx A, @R0" }
  , { code := 0xE3, length := 1, mnemonic := "movx A, @R1" }
  , { code := 0xE4, length := 1, mnemonic := "clr A" }
  , { code := 0xE5, length := 2, mnemonic := "mov A, {0}", args := [ArgType.DATA] }
  , { code := 0xF0, length := 1, mnemonic := "movx @DPTR, A" }
  , { code := 0xF2, length := 1, mnemonic := "movx @R0, A" }
  , { code := 0xF3, length := 1, mnemonic := "movx @R1, A" }
  , { code := 0xF4, length := 1, mnemonic := "cpl A" }
  , { code := 0xF5, length := 2, mnemonic := "mov {0}, A", args := [ArgType.DATA] } ]

/-- `Instructions.__init__`: the whole catalog construction, `Option.none`
when one of the build-time assertions would fire. -/
def buildInstructions : Option (List (Nat × Instruction)) :=
  let t := some []
  let t := msbTable.foldl regClassIns t
  let t := (List.range 8).foldl regIns t
  let t := (List.range 8).foldl addrIns t
  restIns.foldl addIns t

def instrTable : List (Nat × Instruction) := buildInstructions.getD []

/-- `Instructions.__getitem__`, guarded by `code in self.instructions`. -/
def getInstr (code : Nat) : Option Instruction := instrTable.lookup code

/-! ## codeanalyzer.py: data model -/

inductive LabelType where
  | JUMP | DPTR | ADDR
deriving DecidableEq, Repr

/-- The `.value` of the Python enum member. -/
def LabelType.value : LabelType → String
  | .JUMP => "jump"
  | .DPTR => "dptr"
  | .ADDR => "addr"

/-- Python dict assignment `d[k] = v` on an insertion-ordered
association list: update in place when the key exists, else append. -/
def dictInsert {α : Type} (d : List (Int × α)) (k : Int) (v : α) : List (Int × α) :=
  match d with
  | [] => [(k, v)]
  | (k1, v1) :: t => if k1 = k then (k, v) :: t else (k1, v1) :: dictInsert t k v

/-- `addresses.Addresses`: the four scoped name maps. -/
structure Addresses where
  CODE : List (Int × String) := []
  DATA : List (Int × String) := []
  BIT : List (Int × String) := []
  LABEL : List (Int × String) := []
deriving DecidableEq, Repr

/-- `scope in self.addresses`. -/
def Addresses.hasScope (_ : Addresses) (s : String) : Bool :=
  s = "CODE" || s = "DATA" || s = "BIT" || s = "LABEL"

/-- `self.addresses[scope]` (call sites only use existing scopes). -/
def Addresses.scope (ad : Addresses) : String → List (Int × String)
  | "CODE" => ad.CODE
  | "DATA" => ad.DATA
  | "BIT" => ad.BIT
  | "LABEL" => ad.LABEL
  | _ => []

/-- The mutable state of a `CodeAnalyzer` object together with its
immutable construction inputs. -/
structure CodeAnalyzer where
  rom : List Nat
  addresses : Addresses
  offset : Int
  all_is_code : Bool
  labels : List (Int × LabelType)
  forwards : List (Int × Int)
  SFR_warnings : List Int
  no_return_from : List Int
deriving DecidableEq, Repr

/-- `CodeAnalyzer.__init__`: pre-seeds the label table with
`LabelType.ADDR` for every caller-supplied indirect-address target. -/
def mkCodeAnalyzer (rom : List Nat) (addresses : Addresses) (offset : Int)
    (all_is_code : Bool) (no_return_from : List Int) (indirect : List Int) :
    CodeAnalyzer :=
  { rom := rom, addresses := addresses, offset := offset, all_is_code := all_is_code,
    labels := indirect.foldl (fun l a => dictInsert l a LabelType.ADDR) [],
    forwards := [], SFR_warnings := [], no_return_from := no_return_from }

/-! ## codeanalyzer.py: operand decoder (`InstrArgsAnalyzer`) -/

structure InstrArgsAnalyzer where
  rom : List Nat
  pc : Int
  pc_rel : Int
  offset : Int
  pc_arg : Int
deriving DecidableEq, Repr

/-- `InstrArgsAnalyzer.__init__`. -/
def mkArgsAnalyzer (rom : List Nat) (pc pc_rel : Int) (offset : Int) :
    InstrArgsAnalyzer :=
  { rom := rom, pc := pc, pc_rel := pc_rel, offset := offset, pc_arg := pc + 1 }

/-- Outcome of one `next_arg` call: `err` is a raised `IndexError`,
`fail` is Python's `return None`, `ok` carries `(arg, val, hint)`. -/
inductive NextArgOutcome where
  | err
  | fail
  | ok (arg : ArgType) (val : Int) (hint : String)
deriving DecidableEq, Repr

/-- `InstrArgsAnalyzer.next_arg`, together with the updated cursor. -/
def next_arg (a : InstrArgsAnalyzer) (arg : ArgType) :
    NextArgOutcome × InstrArgsAnalyzer :=
  if a.pc ≥ (a.rom.length : Int) then (.fail, a)
  else
    match pyGet a.rom a.pc_arg with
    | Option.none => (.err, a)
    | some val =>
      let a := { a with pc_arg := a.pc_arg + 1 }
      match arg with
      | ArgType.LABEL =>
        if a.pc_arg ≥ (a.rom.length : Int) then (.fail, a)
        else
          match pyGet a.rom a.pc_arg with
          | Option.none => (.err, a)
          | some lo =>
            let v : Int := (((val <<< 8) ||| lo : Nat) : Int) - a.offset
            (.ok ArgType.LABEL v "", { a with pc_arg := a.pc_arg + 1 })
      | ArgType.ADDR =>
        match pyGet a.rom a.pc with
        | Option.none => (.err, a)
        | some op =>
          let v : Nat := pyAnd16 a.pc_rel 0xF800 ||| val ||| ((op <<< 3) &&& 0x700)
          (.ok ArgType.LABEL (v : Int) "", a)
      | ArgType.REL =>
        let sv : Int := if val ≥ 0x80 then (val : Int) - 0x100 else (val : Int)
        let v : Int := a.pc_rel + sv
        if v < 0 then (.fail, a)
        else (.ok ArgType.LABEL v "", a)
      | ArgType.IMM => (.ok ArgType.IMM (val : Int) (binary_hint val), a)
      | other => (.ok other (val : Int) "", a)

/-! ## codeanalyzer.py: `analyze_jumps` -/

/-- The `if val not in self.labels:` tail of the classification block
of `analyze_jumps`: stores the classification when the destination has
none yet, collecting newly created `JUMP` classifications.  The
source's `jumps` is a Python `set`; the embedding records it as a
duplicate-free list in insertion order, which is faithful up to order
only — CPython iterates the set in hash order (see `pySetIter`), so no
theorem relies on the order of this list, only on its members. -/
def processInsert (st : CodeAnalyzer) (jumps : List Int) (jump_out : Bool)
    (ltype : LabelType) (val : Int) : CodeAnalyzer × List Int × Bool :=
  if (st.labels.lookup val).isSome then (st, jumps, jump_out)
  else ({ st with labels := st.labels ++ [(val, ltype)] },
        if ltype = LabelType.JUMP then jumps ++ [val] else jumps,
        jump_out)

/-- The body of the classification block of `analyze_jumps`
(the `if arg == ArgType.LABEL and val != pc:` suite). -/
def processLabelVal (st : CodeAnalyzer) (jumps : List Int) (jump_out : Bool)
    (instr : Instruction) (pc start : Int) (arg : ArgType) (val : Int) :
    CodeAnalyzer × List Int × Bool :=
  if arg = ArgType.LABEL ∧ val ≠ pc then
    if instr.no_jump then processInsert st jumps jump_out LabelType.DPTR val
    else
      let st := if pc = start ∧ instr.jump_out then
          { st with forwards := dictInsert st.forwards pc val } else st
      let jump_out := if st.no_return_from.contains val then true else jump_out
      processInsert st jumps jump_out LabelType.JUMP val
  else (st, jumps, jump_out)

/-- Result of the inner `for iarg in instr.args` loop of `analyze_jumps`:
a decode `fail` breaks the loop (ok), an `IndexError` propagates. -/
inductive ArgsOut where
  | ok (st : CodeAnalyzer) (jumps : List Int) (jump_out : Bool)
  | crashed (st : CodeAnalyzer) (jumps : List Int)
deriving Repr

/-- The inner `for iarg in instr.args` loop of `analyze_jumps`. -/
def argsLoop (instr : Instruction) (pc start : Int) :
    List ArgType → InstrArgsAnalyzer → CodeAnalyzer → List Int → Bool → ArgsOut
  | [], _, st, jumps, jump_out => .ok st jumps jump_out
  | iarg :: rest, ana, st, jumps, jump_out =>
    match next_arg ana iarg with
    | (.err, _) => .crashed st jumps
    | (.fail, _) => .ok st jumps jump_out
    | (.ok arg val _hint, ana) =>
      let (st, jumps, jump_out) := processLabelVal st jumps jump_out instr pc start arg val
      argsLoop instr pc start rest ana st jumps jump_out

/-- Result of the `while pc < len(self.rom)` loop of `analyze_jumps`:
`done` is the normal exit (returning `pc`), `crashed` a propagated
`IndexError`; `fuelOut` is an artefact of the fuelled embedding and is
proved unreachable for the fuel used by `analyze_jumps`. -/
inductive ScanOut where
  | done (st : CodeAnalyzer) (jumps : List Int) (pc : Int)
  | crashed (st : CodeAnalyzer)
  | fuelOut (st : CodeAnalyzer)
deriving Repr

/-- The `while pc < len(self.rom)` loop of `analyze_jumps`. -/
def scanLoop (force : Bool) (start : Int) :
    Nat → Int → CodeAnalyzer → List Int → ScanOut
  | 0, _, st, _ => .fuelOut st
  | fuel + 1, pc, st, jumps =>
    if pc < (st.rom.length : Int) then
      match pyGet st.rom pc with
      | Option.none => .crashed st
      | some code =>
        match getInstr code with
        | Option.none => .done st jumps pc
        | some instr =>
          let jump_out := instr.jump_out && !force
          match (if instr.args.isEmpty then ArgsOut.ok st jumps jump_out
                 else argsLoop instr pc start instr.args
                        (mkArgsAnalyzer st.rom pc (pc + (instr.length : Int)) st.offset)
                        st jumps jump_out) with
          | .crashed st _ => .crashed st
          | .ok st jumps jump_out =>
            if jump_out then .done st jumps (pc + (instr.length : Int))
            else scanLoop force start fuel (pc + (instr.length : Int)) st jumps
    else .done st jumps pc

/-- Fuel that always suffices for `scanLoop` (each iteration advances
`pc` by at least one). -/
def scanFuel (st : CodeAnalyzer) (start : Int) : Nat :=
  st.rom.length + 1 + (-start).toNat

/-- Result of one `analyze_jumps` call.  On the normal path `queue` is
`entry_queue ++ jumps` (the source's final `entry_queue += jumps`); when
the call raises, `entry_queue` is left untouched.  `jumps` lists the
members of the source's `jumps` set in insertion order; the order of
the appended block is faithful only up to permutation, since CPython
iterates the set in hash order (see `pySetIter`). -/
structure AJResult where
  state : CodeAnalyzer
  pc : Int
  jumps : List Int
  queue : List Int
  crashed : Bool
  fuelOut : Bool
deriving Repr

/-- `CodeAnalyzer.analyze_jumps`. -/
def analyze_jumps (st : CodeAnalyzer) (start : Int) (entry_queue : List Int)
    (force : Bool) : AJResult :=
  match scanLoop force start (scanFuel st start) start st [] with
  | .done st jumps pc =>
      { state := st, pc := pc, jumps := jumps, queue := entry_queue ++ jumps,
        crashed := false, fuelOut := false }
  | .crashed st =>
      { state := st, pc := 0, jumps := [], queue := entry_queue,
        crashed := true, fuelOut := false }
  | .fuelOut st =>
      { state := st, pc := 0, jumps := [], queue := entry_queue,
        crashed := false, fuelOut := true }

/-! ## codeanalyzer.py: renderer (`__disassemble_instruction`) -/

/-- Substitutes the `{0}` and `{1}` slots in a mnemonic template
(substituted text is not re-scanned, as in `str.format`). -/
def substSlots (a0 a1 : List Char) : List Char → List Char
  | '\x7b' :: '0' :: '\x7d' :: rest => a0 ++ substSlots a0 a1 rest
  | '\x7b' :: '1' :: '\x7d' :: rest => a1 ++ substSlots a0 a1 rest
  | c :: rest => c :: substSlots a0 a1 rest
  | [] => []

/-- `str.format` restricted to the `{0}`/`{1}` slots the catalog uses. -/
def formatArgs (s : String) (args : List String) : String :=
  String.mk (substSlots (args.getD 0 "").data (args.getD 1 "").data s.data)

/-- Result of the argument-rendering loop of
`__disassemble_instruction`. -/
inductive RenderOut where
  | crash (st : CodeAnalyzer)
  | fail (st : CodeAnalyzer)
  | ok (st : CodeAnalyzer) (args : List String) (hints : String)
deriving Repr

/-- The `for iarg in instr.args` loop of `__disassemble_instruction`. -/
def renderArgsLoop (instr : Instruction) (pc : Int) :
    List ArgType → InstrArgsAnalyzer → CodeAnalyzer → List String → String → RenderOut
  | [], _, st, args, hints => .ok st args hints
  | iarg :: rest, ana, st, args, hints =>
    match next_arg ana iarg with
    | (.err, _) => .crash st
    | (.fail, _) => .fail st
    | (.ok arg val hint, ana) =>
      let hints := hints ++ hint
      let (arg, val, sfx) :=
        if arg = ArgType.BIT ∧ ((st.addresses.scope arg.value).lookup val).isNone then
          let sfx := "." ++ toString (val.toNat &&& 7)
          let val : Int :=
            if val ≥ 0x80 then ((val.toNat &&& 0xF8 : Nat) : Int)
            else (((0x20 ||| (val.toNat >>> 3) : Nat)) : Int)
          (ArgType.DATA, val, sfx)
        else (arg, val, "")
      let st :=
        if arg = ArgType.DATA ∧ val ≥ 0x80 ∧ ¬ st.SFR_warnings.contains val ∧
           ((st.addresses.scope arg.value).lookup val).isNone then
          { st with SFR_warnings := st.SFR_warnings ++ [val] }
        else st
      let valstr :=
        if arg = ArgType.LABEL ∧ val = pc then "$"
        else if st.addresses.hasScope arg.value then
          match (st.addresses.scope arg.value).lookup val with
          | some name => name
          | Option.none => int2hex val
        else int2hex val
      renderArgsLoop instr pc rest ana st (args ++ [valstr ++ sfx]) hints

/-- Result of `__disassemble_instruction`: `fail` is `return None`,
`crash` a raised `IndexError`. -/
inductive DisOut where
  | crash
  | fail
  | ok (text : String) (length : Nat)
deriving DecidableEq, Repr

/-- `CodeAnalyzer.__disassemble_instruction`. -/
def disassemble_instruction (st : CodeAnalyzer) (pc : Int) : DisOut × CodeAnalyzer :=
  if pc ≥ (st.rom.length : Int) then (.fail, st)
  else match pyGet st.rom pc with
  | Option.none => (.crash, st)
  | some code =>
    match getInstr code with
    | Option.none => (.fail, st)
    | some instr =>
      if instr.args.isEmpty then
        let result := instr.mnemonic
        let result := if instr.jump_out then result ++ "\n" else result
        (.ok ("\t" ++ result) instr.length, st)
      else
        match renderArgsLoop instr pc instr.args
                (mkArgsAnalyzer st.rom pc (pc + (instr.length : Int)) st.offset)
                st [] "" with
        | .crash st => (.crash, st)
        | .fail st => (.fail, st)
        | .ok st args hints =>
          if args.length ≠ instr.args.length then (.fail, st)
          else
            let result := formatArgs instr.mnemonic args
            let result := if hints ≠ "" then result ++ "\t; " ++ hints else result
            let result := if instr.jump_out then result ++ "\n" else result
            (.ok ("\t" ++ result) instr.length, st)

/-! ## codeanalyzer.py: `give_auto_labels` -/

/-- One iteration of the `for address, jump in self.labels.items()`
loop of `give_auto_labels`, acting on the LABEL name map. -/
def autoLabelStep (forwards : List (Int × Int)) (acc : List (Int × String))
    (p : Int × LabelType) : List (Int × String) :=
  let (address, jump) := p
  if (acc.lookup address).isSome then acc
  else
    let label :=
      match forwards.lookup address with
      | some fwd =>
        let label :=
          match acc.lookup fwd with
          | some l => l
          | Option.none => auto_label jump.value fwd
        ("fwd_" ++ pyHex04 address ++ "_") ++ label
      | Option.none => auto_label jump.value address
    dictInsert acc address label

/-- `CodeAnalyzer.give_auto_labels`. -/
def give_auto_labels (st : CodeAnalyzer) : CodeAnalyzer :=
  let lab := st.labels.foldl (autoLabelStep st.forwards) st.addresses.LABEL
  { st with addresses := { st.addresses with LABEL := lab } }

/-! ## The worklist driver -/

/-- Outcome of the fuelled worklist loop; `appended` accumulates every
address any scan call appended to the queue. -/
inductive WLOut where
  | done (st : CodeAnalyzer) (appended : List Int)
  | crashed (st : CodeAnalyzer) (appended : List Int)
  | fuelOut (st : CodeAnalyzer) (appended : List Int)
deriving Repr

/-- Modelled from the spec: the worklist driver (which lives in the
out-of-scope command-line front end) repeatedly pops one address off
the entry queue and calls `analyze_jumps` with the rest of the queue,
merging the newly discovered addresses back, until the queue is
empty. -/
def worklist : Nat → CodeAnalyzer → List Int → List Int → WLOut
  | 0, st, _, app => .fuelOut st app
  | _ + 1, st, [], app => .done st app
  | fuel + 1, st, a :: rest, app =>
    let r := analyze_jumps st a rest false
    if r.crashed then .crashed r.state app
    else if r.fuelOut then .fuelOut r.state app
    else worklist fuel r.state r.queue (app ++ r.jumps)

/-- Modelled from the spec: the recursive name resolution the
specification ascribes to the Label Namer — an address with a
forwarding entry takes the alias marker plus its target's recursively
resolved name (external name, alias-of-alias, or the target's own
auto-generated name).  Used only to compare the specified behaviour
with `give_auto_labels`. -/
def specResolveName (ext : List (Int × String)) (forwards : List (Int × Int))
    (labels : List (Int × LabelType)) : Nat → Int → Option String
  | 0, _ => Option.none
  | fuel + 1, a =>
    match ext.lookup a with
    | some n => some n
    | Option.none =>
      match forwards.lookup a with
      | some b => (specResolveName ext forwards labels fuel b).map
          (fun n => ("fwd_" ++ pyHex04 a ++ "_") ++ n)
      | Option.none => (labels.lookup a).map (fun t => auto_label t.value a)

/-! ## Derived, purely descriptive functions used in statements -/

/-- Bytes consumed by one operand of the given kind. -/
def argBytes : ArgType → Nat
  | ArgType.LABEL => 2
  | _ => 1

/-- Total operand bytes of an operand-kind list. -/
def argBytesList (args : List ArgType) : Nat := (args.map argBytes).sum

/-- Runs the operand decoder over a whole operand list; `some` exactly
when every operand decodes. -/
def runArgs : List ArgType → InstrArgsAnalyzer → Option InstrArgsAnalyzer
  | [], ana => some ana
  | iarg :: rest, ana =>
    match next_arg ana iarg with
    | (.ok _ _ _, ana2) => runArgs rest ana2
    | _ => Option.none

/-- The label-resolved operand values produced by the decoder at one
instruction, in decode order, cut off at the first failure. -/
def decodedLabelVals : List ArgType → InstrArgsAnalyzer → List Int
  | [], _ => []
  | iarg :: rest, ana =>
    match next_arg ana iarg with
    | (.ok arg val _, ana2) =>
      if arg = ArgType.LABEL then val :: decodedLabelVals rest ana2
      else decodedLabelVals rest ana2
    | _ => []

/-- The label destinations the scan can record at position `pc`
(a pure function of the ROM, the bias and `pc`). -/
def labelValsAt (rom : List Nat) (offset : Int) (pc : Int) : List Int :=
  match pyGet rom pc with
  | Option.none => []
  | some code =>
    match getInstr code with
    | Option.none => []
    | some instr =>
      if instr.args.isEmpty then []
      else decodedLabelVals instr.args
             (mkArgsAnalyzer rom pc (pc + (instr.length : Int)) offset)

/-- Operand kinds that resolve to a `LABEL`. -/
def isLabelKind (a : ArgType) : Bool :=
  a == ArgType.LABEL || a == ArgType.REL || a == ArgType.ADDR

/-- The addresses a label-delta contributes to the entry queue. -/
def jumpsOf (Δ : List (Int × LabelType)) : List Int :=
  (Δ.filter (fun p => p.2 == LabelType.JUMP)).map Prod.fst

/-- CPython's iteration order of the `jumps` set, for the situation the
C8 counterexample uses: distinct nonnegative values below 8 hash to
themselves and occupy slot `value & 7` of the initial 8-slot table
without collisions or resizing, so iteration visits them in ascending
slot order, regardless of insertion order. -/
def pySetIter (l : List Int) : List Int :=
  ((List.range 8).map (Int.ofNat)).filter (fun s => l.contains s)

/-- Each entry of `Δ` was absent from the table at its insertion time. -/
def FreshOver (l : List (Int × LabelType)) : List (Int × LabelType) → Prop
  | [] => True
  | p :: Δ => l.lookup p.1 = Option.none ∧ FreshOver (l ++ [p]) Δ

/-- All `CodeAnalyzer` fields except `labels` and `forwards` agree. -/
def SameCore (st st2 : CodeAnalyzer) : Prop :=
  st2.rom = st.rom ∧ st2.offset = st.offset ∧ st2.addresses = st.addresses ∧
  st2.all_is_code = st.all_is_code ∧ st2.no_return_from = st.no_return_from ∧
  st2.SFR_warnings = st.SFR_warnings

/-- Invariant of the label table during a worklist run: keys are
pairwise distinct, and every key is either a pre-seeded indirect
target or a label destination decodable at some ROM position — where a
position is any index `-len ≤ j < len`, since a scan reached through a
negative (biased) destination reads the ROM through Python's negative
indexing. -/
def LabelsOK (rom : List Nat) (offset : Int) (pres : List Int)
    (labels : List (Int × LabelType)) : Prop :=
  (labels.map Prod.fst).Nodup ∧
  ∀ p ∈ labels, p.1 ∈ pres ∨
    ∃ j : Int, -(rom.length : Int) ≤ j ∧ j < (rom.length : Int) ∧
      p.1 ∈ labelValsAt rom offset j

/-- Final state of a worklist run. -/
def WLOut.state : WLOut → CodeAnalyzer
  | .done st _ => st
  | .crashed st _ => st
  | .fuelOut st _ => st

/-- Whether the worklist run completed with an empty queue. -/
def WLOut.isDone : WLOut → Bool
  | .done _ _ => true
  | _ => false

/-- ROM used by several concrete statements: an `ajmp` opcode at
address `0x0100` with operand byte `0x34`. -/
def pageJumpRom : List Nat := List.replicate 256 0 ++ [0x01, 0x34]

/-- ROM with a trampoline chain `0 → 3 → 6 → 9`, each hop an `ljmp`,
ending in `ret`. -/
def chainRom : List Nat :=
  [0x02, 0x00, 0x03, 0x02, 0x00, 0x06, 0x02, 0x00, 0x09, 0x22]

/-! ## Claim theorems: catalog -/

set_option maxHeartbeats 4000000 in
set_option maxRecDepth 10000 in
/-- C4: catalog construction succeeds — neither the duplicate-opcode
assertion nor the completeness assertion fires — and every opcode byte
0..255 is mapped to exactly one descriptor (lookup is total and the
opcode keys are pairwise distinct). -/
theorem catalog_total_unique :
    buildInstructions.isSome = true ∧
    (∀ c : Fin 256, (getInstr c.val).isSome = true) ∧
    (instrTable.map Prod.fst).Nodup := by
  refine ⟨by decide, by decide, by decide⟩

/-! ## Claim theorems: operand decoder -/

/-- C5: resolving a `ShortPageLabel` (`ADDR`) operand consumes one byte
(the cursor moves from `pc + 1` to `pc + 2`) and yields
`(pcNext & 0xF800) | rawByte | ((opcodeByte << 3) & 0x700)` with the
kind reclassified to `LABEL`. -/
theorem addr_short_page_resolution (rom : List Nat) (pc pc_rel offset : Int)
    (op raw : Nat) (hpc : ¬ pc ≥ (rom.length : Int))
    (hop : pyGet rom pc = some op) (hraw : pyGet rom (pc + 1) = some raw) :
    next_arg (mkArgsAnalyzer rom pc pc_rel offset) ArgType.ADDR =
      (NextArgOutcome.ok ArgType.LABEL
        ((pyAnd16 pc_rel 0xF800 ||| raw ||| ((op <<< 3) &&& 0x700) : Nat) : Int) "",
       { rom := rom, pc := pc, pc_rel := pc_rel, offset := offset, pc_arg := pc + 1 + 1 }) := by
  simp [next_arg, mkArgsAnalyzer, hpc, hop, hraw]

/-- Witness for C5: opcode byte `0x01` at address `0x0100` with operand
byte `0x34` and bias 0: `pcNext = 0x0102` and the resolved target is
`0x0034`. -/
theorem addr_short_page_resolution_witness :
    next_arg (mkArgsAnalyzer pageJumpRom 0x100 0x102 0) ArgType.ADDR =
      (NextArgOutcome.ok ArgType.LABEL 0x34 "",
       { rom := pageJumpRom, pc := 0x100, pc_rel := 0x102, offset := 0, pc_arg := 0x102 }) := by
  have h := addr_short_page_resolution pageJumpRom 0x100 0x102 0 0x01 0x34
    (by decide) (by decide) (by decide)
  simpa using h

/-- C2 (code-bug evidence): when fewer bytes remain than an operand
requires, the decoder raises `IndexError` (the truncation guard tests
`self.pc` instead of `self.pc_arg`): a 3-byte `ljmp` whose opcode is
the last ROM byte crashes `next_arg`, `analyze_jumps` and
`__disassemble_instruction` instead of failing gracefully.  The two
failure cases the guard does cover — a missing second byte of an
`AbsoluteLongLabel` and a negative `RelativeLabel` target — return the
undecodable outcome as specified. -/
theorem truncated_operand_crashes :
    (next_arg (mkArgsAnalyzer [0x02] 0 3 0) ArgType.LABEL).1 = NextArgOutcome.err ∧
    (analyze_jumps (mkCodeAnalyzer [0x02] {} 0 false [] []) 0 [] false).crashed = true ∧
    (disassemble_instruction (mkCodeAnalyzer [0x02] {} 0 false [] []) 0).1 = DisOut.crash ∧
    (next_arg (mkArgsAnalyzer [0x02, 0x10] 0 3 0) ArgType.LABEL).1 = NextArgOutcome.fail ∧
    (next_arg (mkArgsAnalyzer [0x80, 0xFD] 0 2 0) ArgType.REL).1 = NextArgOutcome.fail := by
  exact ⟨rfl, rfl, rfl, rfl, rfl⟩

/-! ## Claim theorems: self-jumps -/

/-- C6: a `LABEL` operand whose destination equals the current opcode
address never creates or alters a label-table entry (the scan's
classification step is a no-op on a self-jump), and the renderer shows
the self-jump marker `$` for it regardless of the symbol table; in
particular ROM `[0x80, 0xFE]` at address 0 resolves to target 0 and
renders as `sjmp $`, leaving the label table empty. -/
theorem self_jump_no_label_and_marker :
    (∀ (st : CodeAnalyzer) (jumps : List Int) (jo : Bool) (instr : Instruction)
       (pc start val : Int), val = pc →
        processLabelVal st jumps jo instr pc start ArgType.LABEL val = (st, jumps, jo)) ∧
    (∀ ad : Addresses,
        (disassemble_instruction (mkCodeAnalyzer [0x80, 0xFE] ad 0 false [] []) 0).1 =
          DisOut.ok "\tsjmp $\n" 2) ∧
    (analyze_jumps (mkCodeAnalyzer [0x80, 0xFE] {} 0 false [] []) 0 [] false).state.labels = [] ∧
    (analyze_jumps (mkCodeAnalyzer [0x80, 0xFE] {} 0 false [] []) 0 [] false).pc = 2 := by
  refine ⟨?_, ?_, rfl, rfl⟩
  · intro st jumps jo instr pc start val hv
    subst hv
    simp [processLabelVal]
  · intro ad
    rfl

/-- Witness for C6: the self-jump classification step on the concrete
`sjmp $` instruction at address 0 leaves the state untouched. -/
theorem self_jump_no_label_and_marker_witness :
    processLabelVal (mkCodeAnalyzer [0x80, 0xFE] {} 0 false [] []) [] false
      { code := 0x80, length := 2, mnemonic := "sjmp {0}", args := [ArgType.REL],
        jump_out := true } 0 0 ArgType.LABEL 0 =
      (mkCodeAnalyzer [0x80, 0xFE] {} 0 false [] [], [], false) :=
  self_jump_no_label_and_marker.1 _ [] false _ 0 0 0 rfl

/-! ## Claim theorems: decode failure during a scan (C1) -/

/-- C1 (counterexample): the claim says a decode failure stops the scan
at the failing instruction's address.  On ROM `[0x40, 0xFD, 0x00]` the
`jc` at address 0 has a `RelativeLabel` operand resolving to −1, so its
decode fails (`next_arg` returns the undecodable outcome), yet the scan
does not stop there: it advances past the instruction, decodes the
`nop` at address 2, and returns 3, not 0. -/
theorem decode_failure_does_not_stop_scan_cex :
    (next_arg (mkArgsAnalyzer [0x40, 0xFD, 0x00] 0 2 0) ArgType.REL).1 =
      NextArgOutcome.fail ∧
    (analyze_jumps (mkCodeAnalyzer [0x40, 0xFD, 0x00] {} 0 false [] []) 0 [] false).crashed
      = false ∧
    (analyze_jumps (mkCodeAnalyzer [0x40, 0xFD, 0x00] {} 0 false [] []) 0 [] false).pc = 3 ∧
    ((3 : Int) ≠ 0) ∧
    (analyze_jumps (mkCodeAnalyzer [0x40, 0xFD, 0x00] {} 0 false [] []) 0 [] false).state.labels
      = [] := by
  exact ⟨rfl, rfl, rfl, by decide, rfl⟩

/-- C1 (amended): when an operand's decode returns the undecodable
outcome, the remaining operands of that instruction are not processed
and no classification is recorded from that point of the instruction
on (the inner argument loop returns its state unchanged); the scan then
advances by the instruction's declared length and continues — on ROM
`[0x40, 0xFD, 0x00, 0x22]` it proceeds to decode the `ret` at address 3
and returns 4. -/
theorem decode_failure_skips_rest_of_instruction
    (instr : Instruction) (pc start : Int) (iarg : ArgType) (rest : List ArgType)
    (ana : InstrArgsAnalyzer) (st : CodeAnalyzer) (jumps : List Int) (jo : Bool)
    (h : (next_arg ana iarg).1 = NextArgOutcome.fail) :
    argsLoop instr pc start (iarg :: rest) ana st jumps jo = ArgsOut.ok st jumps jo ∧
    (analyze_jumps (mkCodeAnalyzer [0x40, 0xFD, 0x00, 0x22] {} 0 false [] []) 0 [] false).pc
      = 4 := by
  constructor
  · rcases hna : next_arg ana iarg with ⟨out, ana2⟩
    rw [hna] at h
    simp only at h
    subst h
    simp [argsLoop, hna]
  · rfl

/-- Witness for C1 (amended), at the concrete failing `jc` operand. -/
theorem decode_failure_skips_rest_of_instruction_witness :
    argsLoop { code := 0x40, length := 2, mnemonic := "jc {0}", args := [ArgType.REL] }
        0 0 [ArgType.REL] (mkArgsAnalyzer [0x40, 0xFD, 0x00] 0 2 0)
        (mkCodeAnalyzer [0x40, 0xFD, 0x00] {} 0 false [] []) [] false =
      ArgsOut.ok (mkCodeAnalyzer [0x40, 0xFD, 0x00] {} 0 false [] []) [] false :=
  (decode_failure_skips_rest_of_instruction _ 0 0 ArgType.REL []
    (mkArgsAnalyzer [0x40, 0xFD, 0x00] 0 2 0)
    (mkCodeAnalyzer [0x40, 0xFD, 0x00] {} 0 false [] []) [] false rfl).1

/-! ## Claim theorems: worklist bound counterexample (C3) -/

/-- C3 (counterexample): the claim bounds the label table's size by the
ROM length, but the table is pre-seeded with one `ADDR` entry per
caller-supplied indirect target: with ROM `[0x00]` (length 1) and two
indirect targets the worklist run completes with a table of size 2. -/
theorem label_table_exceeds_rom_length_cex :
    (worklist 2 (mkCodeAnalyzer [0x00] {} 0 false [] [10, 20]) [0] []).isDone = true ∧
    (worklist 2 (mkCodeAnalyzer [0x00] {} 0 false [] [10, 20]) [0] []).state.labels.length
      = 2 ∧
    ([0x00] : List Nat).length = 1 ∧ 2 > 1 := by
  exact ⟨rfl, rfl, rfl, by decide⟩

/-! ## Claim theorems: auto-label resolution counterexample (C9) -/

/-- C9 (counterexample): the claim says a forwarding entry's name is the
alias marker plus the target's *recursively resolved* name.  Running the
full pipeline on the trampoline chain `0 → 3 → 6 → 9`, the address 3
(which forwards to 6, itself a forwarding entry) is named
`fwd_0003_jump_0006`, while the recursive resolution of the spec would
give `fwd_0003_fwd_0006_jump_0009`. -/
theorem forward_name_not_recursive_cex :
    ((give_auto_labels
        (worklist 20 (mkCodeAnalyzer chainRom {} 0 false [] []) [0]
          []).state).addresses.LABEL.lookup 3 = some "fwd_0003_jump_0006") ∧
    (specResolveName []
        (worklist 20 (mkCodeAnalyzer chainRom {} 0 false [] []) [0] []).state.forwards
        (worklist 20 (mkCodeAnalyzer chainRom {} 0 false [] []) [0] []).state.labels
        10 3 = some "fwd_0003_fwd_0006_jump_0009") ∧
    ("fwd_0003_jump_0006" : String) ≠ "fwd_0003_fwd_0006_jump_0009" := by
  exact ⟨rfl, rfl, by decide⟩

/-! ## Structural lemmas about the decoder -/

lemma lookup_mem {α β : Type} [BEq α] [LawfulBEq α] {l : List (α × β)} {a : α} {b : β}
    (h : l.lookup a = some b) : (a, b) ∈ l := by
  induction l with
  | nil => simp [List.lookup] at h
  | cons p t ih =>
    rcases p with ⟨k, v⟩
    simp only [List.lookup] at h
    cases hk : a == k with
    | true =>
      rw [hk] at h
      simp only [Option.some.injEq] at h
      subst h
      have : a = k := eq_of_beq hk
      subst this
      exact List.mem_cons_self _ _
    | false =>
      rw [hk] at h
      exact List.mem_cons_of_mem _ (ih h)

set_option maxHeartbeats 4000000 in
lemma table_facts :
    ∀ p ∈ instrTable, 1 ≤ p.2.length ∧ p.2.length = 1 + argBytesList p.2.args ∧
      (p.2.args.filter isLabelKind).length ≤ 1 := by decide

lemma getInstr_facts {c : Nat} {i : Instruction} (h : getInstr c = some i) :
    1 ≤ i.length ∧ i.length = 1 + argBytesList i.args ∧
      (i.args.filter isLabelKind).length ≤ 1 :=
  table_facts (c, i) (lookup_mem h)

lemma next_arg_ok_state {ana : InstrArgsAnalyzer} {iarg arg : ArgType} {val : Int}
    {hint : String} {ana2 : InstrArgsAnalyzer}
    (h : next_arg ana iarg = (NextArgOutcome.ok arg val hint, ana2)) :
    ana2.pc_arg = ana.pc_arg + (argBytes iarg : Int) ∧ ana2.rom = ana.rom ∧
    ana2.pc = ana.pc ∧ ana2.pc_rel = ana.pc_rel ∧ ana2.offset = ana.offset := by
  cases iarg <;>
    (simp only [next_arg] at h) <;>
    (repeat' split at h) <;>
    (simp only [Prod.mk.injEq] at h) <;>
    (obtain ⟨h1, h2⟩ := h) <;>
    first
      | exact NextArgOutcome.noConfusion h1
      | (subst h2; simp [argBytes] <;> omega)

lemma next_arg_label_source {ana : InstrArgsAnalyzer} {iarg : ArgType} {val : Int}
    {hint : String} {ana2 : InstrArgsAnalyzer}
    (h : next_arg ana iarg = (NextArgOutcome.ok ArgType.LABEL val hint, ana2)) :
    isLabelKind iarg = true := by
  unfold next_arg at h
  cases iarg <;>
    (repeat' split at h) <;>
    simp_all [isLabelKind]

lemma next_arg_ok_nonneg {ana : InstrArgsAnalyzer} {iarg : ArgType} {val : Int}
    {hint : String} {ana2 : InstrArgsAnalyzer}
    (h : next_arg ana iarg = (NextArgOutcome.ok ArgType.LABEL val hint, ana2))
    (hoff : ana.offset = 0) : 0 ≤ val := by
  cases iarg <;>
    (simp only [next_arg] at h) <;>
    (repeat' split at h) <;>
    (simp only [Prod.mk.injEq] at h) <;>
    (obtain ⟨h1, h2⟩ := h) <;>
    first
      | exact NextArgOutcome.noConfusion h1
      | (rw [NextArgOutcome.ok.injEq] at h1;
         obtain ⟨ha, hv, hh⟩ := h1;
         first
           | exact ArgType.noConfusion ha
           | (subst hv; omega))

lemma runArgs_pc_arg : ∀ (args : List ArgType) (ana ana2 : InstrArgsAnalyzer),
    runArgs args ana = some ana2 →
    ana2.pc_arg = ana.pc_arg + (argBytesList args : Int)
  | [], ana, ana2, h => by
    simp only [runArgs, Option.some.injEq] at h
    subst h
    simp [argBytesList]
  | iarg :: rest, ana, ana2, h => by
    simp only [runArgs] at h
    rcases hna : next_arg ana iarg with ⟨out, anam⟩
    rw [hna] at h
    cases out with
    | err => simp at h
    | fail => simp at h
    | ok arg val hint =>
      have hstep := next_arg_ok_state hna
      have hrest := runArgs_pc_arg rest anam ana2 h
      rw [hrest, hstep.1]
      simp only [argBytesList, List.map_cons, List.sum_cons]
      push_cast
      ring

/-- C10: every catalog descriptor's declared length is 1 plus the total
operand bytes of its operand-kind list (2 bytes for the 16-bit label
kind, 1 byte for every other kind), and consequently the decoder's
cursor after successfully decoding all operands of an instruction at
`pc` is exactly `pc + length`. -/
theorem length_matches_operand_bytes :
    (∀ (c : Nat) (i : Instruction), getInstr c = some i →
        i.length = 1 + argBytesList i.args) ∧
    (∀ (rom : List Nat) (pc offset : Int) (c : Nat) (i : Instruction)
       (ana2 : InstrArgsAnalyzer),
        getInstr c = some i →
        runArgs i.args (mkArgsAnalyzer rom pc (pc + (i.length : Int)) offset) = some ana2 →
        ana2.pc_arg = pc + (i.length : Int)) := by
  constructor
  · intro c i h
    exact (getInstr_facts h).2.1
  · intro rom pc offset c i ana2 h hrun
    have hlen := (getInstr_facts h).2.1
    have := runArgs_pc_arg i.args _ ana2 hrun
    rw [this]
    simp only [mkArgsAnalyzer]
    rw [hlen]
    push_cast
    ring

/-- Witness for C10: `ljmp` (opcode `0x02`, declared length 3) on ROM
`[0x02, 0x10, 0x00]`: decoding its single 16-bit label operand leaves
the cursor at `0 + 3`. -/
theorem length_matches_operand_bytes_witness :
    ((3 : Nat) = 1 + argBytesList [ArgType.LABEL]) ∧
    ∃ ana2 : InstrArgsAnalyzer,
      runArgs [ArgType.LABEL] (mkArgsAnalyzer [0x02, 0x10, 0x00] 0 3 0) = some ana2 ∧
      ana2.pc_arg = 0 + 3 := by
  have h : getInstr 0x02 = some ⟨0x02, 3, "ljmp {0}", [ArgType.LABEL], true, false⟩ := by rfl
  constructor
  · simpa using length_matches_operand_bytes.1 0x02 _ h
  · refine ⟨_, rfl, ?_⟩
    have h2 := length_matches_operand_bytes.2 [0x02, 0x10, 0x00] 0 0 0x02
      ⟨0x02, 3, "ljmp {0}", [ArgType.LABEL], true, false⟩ _ h rfl
    simpa using h2

/-! ## Association-list lemmas -/

lemma lookup_cons_ite {α : Type} (k : Int) (v : α) (t : List (Int × α)) (a : Int) :
    ((k, v) :: t).lookup a = if a = k then some v else t.lookup a := by
  by_cases h : a = k
  · subst h; simp [List.lookup]
  · have hb : (a == k) = false := by simp [h]
    simp [List.lookup, hb, h]

lemma lookup_eq_none_iff {α : Type} {a : Int} {l : List (Int × α)} :
    l.lookup a = Option.none ↔ a ∉ l.map Prod.fst := by
  induction l with
  | nil => simp [List.lookup]
  | cons p t ih =>
    rcases p with ⟨k, v⟩
    by_cases h : a = k
    · subst h; simp [List.lookup]
    · have hb : (a == k) = false := by simp [h]
      simp [List.lookup, hb, ih, h]

lemma lookup_append_some {α : Type} {l l2 : List (Int × α)} {a : Int} {v : α}
    (h : l.lookup a = some v) : (l ++ l2).lookup a = some v := by
  induction l with
  | nil => simp [List.lookup] at h
  | cons p t ih =>
    rcases p with ⟨k, w⟩
    rw [lookup_cons_ite] at h
    rw [List.cons_append, lookup_cons_ite]
    by_cases hk : a = k
    · simpa [hk] using h
    · rw [if_neg hk] at h ⊢
      exact ih h

lemma lookup_append_none {α : Type} {l l2 : List (Int × α)} {a : Int}
    (h : (l ++ l2).lookup a = Option.none) : l.lookup a = Option.none := by
  cases hv : l.lookup a with
  | none => rfl
  | some v => rw [lookup_append_some hv] at h; cases h

lemma lookup_append_singleton_self {α : Type} {l : List (Int × α)} {a : Int} {v : α}
    (h : l.lookup a = Option.none) : (l ++ [(a, v)]).lookup a = some v := by
  induction l with
  | nil => simp [List.lookup]
  | cons p t ih =>
    rcases p with ⟨k, w⟩
    rw [lookup_cons_ite] at h
    rw [List.cons_append, lookup_cons_ite]
    by_cases hk : a = k
    · rw [if_pos hk] at h; cases h
    · rw [if_neg hk] at h ⊢
      exact ih h

/-! ## Lemmas about `FreshOver`, `SameCore` and `jumpsOf` -/

lemma freshOver_mem : ∀ (Δ l : List (Int × LabelType)), FreshOver l Δ →
    ∀ p ∈ Δ, l.lookup p.1 = Option.none
  | [], _, _, p, hp => by cases hp
  | q :: Δ, l, h, p, hp => by
    rcases h with ⟨h1, h2⟩
    rcases List.mem_cons.mp hp with rfl | hp2
    · exact h1
    · exact lookup_append_none (freshOver_mem Δ (l ++ [q]) h2 p hp2)

lemma freshOver_append : ∀ (Δ1 Δ2 l : List (Int × LabelType)),
    FreshOver l Δ1 → FreshOver (l ++ Δ1) Δ2 → FreshOver l (Δ1 ++ Δ2)
  | [], Δ2, l, _, h2 => by simpa using h2
  | q :: Δ1, Δ2, l, h1, h2 => by
    rcases h1 with ⟨ha, hb⟩
    refine ⟨ha, ?_⟩
    have h2a : FreshOver ((l ++ [q]) ++ Δ1) Δ2 := by
      simpa [List.append_assoc] using h2
    exact freshOver_append Δ1 Δ2 (l ++ [q]) hb h2a

lemma freshOver_keys_nodup : ∀ (Δ l : List (Int × LabelType)),
    FreshOver l Δ → (Δ.map Prod.fst).Nodup
  | [], _, _ => by simp
  | q :: Δ, l, h => by
    rcases h with ⟨h1, h2⟩
    have tail := freshOver_keys_nodup Δ (l ++ [q]) h2
    have hq : q.1 ∉ Δ.map Prod.fst := by
      intro hmem
      rcases List.mem_map.mp hmem with ⟨p, hp, hpe⟩
      have hnone := freshOver_mem Δ (l ++ [q]) h2 p hp
      have hmem2 : p.1 ∈ (l ++ [q]).map Prod.fst := by
        rw [List.map_append]
        exact List.mem_append.mpr (Or.inr (by simp [hpe]))
      exact (lookup_eq_none_iff.mp hnone) hmem2
    rw [List.map_cons, List.nodup_cons]
    exact ⟨hq, tail⟩

lemma nodup_keys_append : ∀ (Δ l : List (Int × LabelType)),
    (l.map Prod.fst).Nodup → FreshOver l Δ → ((l ++ Δ).map Prod.fst).Nodup
  | [], l, hl, _ => by simpa using hl
  | q :: Δ, l, hl, h => by
    rcases h with ⟨h1, h2⟩
    have hl2 : ((l ++ [q]).map Prod.fst).Nodup := by
      rw [List.map_append]
      refine List.Nodup.append hl (by simp) ?_
      intro x hx hx2
      simp only [List.map_cons, List.map_nil, List.mem_singleton] at hx2
      rw [lookup_eq_none_iff] at h1
      exact h1 (hx2 ▸ hx)
    have := nodup_keys_append Δ (l ++ [q]) hl2 h2
    simpa [List.append_assoc] using this

lemma jumpsOf_append (Δ1 Δ2 : List (Int × LabelType)) :
    jumpsOf (Δ1 ++ Δ2) = jumpsOf Δ1 ++ jumpsOf Δ2 := by
  simp [jumpsOf]

lemma jumpsOf_subset {Δ : List (Int × LabelType)} {a : Int} (h : a ∈ jumpsOf Δ) :
    a ∈ Δ.map Prod.fst := by
  rcases List.mem_map.mp h with ⟨p, hp, hpe⟩
  exact List.mem_map.mpr ⟨p, List.mem_of_mem_filter hp, hpe⟩

lemma jumpsOf_length_le (Δ : List (Int × LabelType)) :
    (jumpsOf Δ).length ≤ Δ.length := by
  simp only [jumpsOf, List.length_map]
  exact List.length_filter_le _ _

lemma jumpsOf_nodup {Δ : List (Int × LabelType)} (h : (Δ.map Prod.fst).Nodup) :
    (jumpsOf Δ).Nodup :=
  h.sublist ((List.filter_sublist Δ).map Prod.fst)

lemma sameCore_refl (st : CodeAnalyzer) : SameCore st st :=
  ⟨rfl, rfl, rfl, rfl, rfl, rfl⟩

lemma sameCore_trans {s1 s2 s3 : CodeAnalyzer} (h1 : SameCore s1 s2)
    (h2 : SameCore s2 s3) : SameCore s1 s3 := by
  obtain ⟨a1, b1, c1, d1, e1, f1⟩ := h1
  obtain ⟨a2, b2, c2, d2, e2, f2⟩ := h2
  exact ⟨a2.trans a1, b2.trans b1, c2.trans c1, d2.trans d1, e2.trans e1, f2.trans f1⟩

/-! ## Structure of the classification step -/

lemma processInsert_spec (st : CodeAnalyzer) (jumps : List Int) (jo : Bool)
    (ltype : LabelType) (val : Int) :
    ∃ Δ st2,
      processInsert st jumps jo ltype val = (st2, jumps ++ jumpsOf Δ, jo) ∧
      st2.labels = st.labels ++ Δ ∧ FreshOver st.labels Δ ∧ SameCore st st2 ∧
      (∀ p ∈ Δ, p.1 = val) := by
  by_cases hlk : (st.labels.lookup val).isSome
  · refine ⟨[], st, ?_, by simp, trivial, sameCore_refl st, by simp⟩
    simp [processInsert, hlk, jumpsOf]
  · refine ⟨[(val, ltype)], { st with labels := st.labels ++ [(val, ltype)] }, ?_, rfl,
      ⟨Option.not_isSome_iff_eq_none.mp hlk, trivial⟩,
      ⟨rfl, rfl, rfl, rfl, rfl, rfl⟩, by simp⟩
    rw [processInsert, if_neg hlk]
    cases ltype <;> simp [jumpsOf]

lemma processLabelVal_spec (st : CodeAnalyzer) (jumps : List Int) (jo : Bool)
    (instr : Instruction) (pc start : Int) (arg : ArgType) (val : Int) :
    ∃ Δ st2 jo2,
      processLabelVal st jumps jo instr pc start arg val = (st2, jumps ++ jumpsOf Δ, jo2) ∧
      st2.labels = st.labels ++ Δ ∧ FreshOver st.labels Δ ∧ SameCore st st2 ∧
      (∀ p ∈ Δ, p.1 = val ∧ arg = ArgType.LABEL) := by
  by_cases hc : arg = ArgType.LABEL ∧ val ≠ pc
  · unfold processLabelVal
    rw [if_pos hc]
    by_cases hnj : instr.no_jump
    · rw [if_pos hnj]
      obtain ⟨Δ, st2, heq, hlab, hfr, hsc, hkey⟩ :=
        processInsert_spec st jumps jo LabelType.DPTR val
      exact ⟨Δ, st2, jo, heq, hlab, hfr, hsc, fun p hp => ⟨hkey p hp, hc.1⟩⟩
    · rw [if_neg hnj]
      dsimp only
      set stm := (if pc = start ∧ instr.jump_out = true then
          { st with forwards := dictInsert st.forwards pc val } else st) with hstm
      set jo2 := (if stm.no_return_from.contains val = true then true else jo) with hjo
      have hml : stm.labels = st.labels := by
        rw [hstm]; split <;> rfl
      have hmc : SameCore st stm := by
        rw [hstm]; split
        · exact ⟨rfl, rfl, rfl, rfl, rfl, rfl⟩
        · exact sameCore_refl st
      obtain ⟨Δ, st2, heq, hlab, hfr, hsc, hkey⟩ :=
        processInsert_spec stm jumps jo2 LabelType.JUMP val
      rw [hml] at hlab hfr
      exact ⟨Δ, st2, jo2, heq, hlab, hfr, sameCore_trans hmc hsc,
        fun p hp => ⟨hkey p hp, hc.1⟩⟩
  · refine ⟨[], st, jo, ?_, by simp, trivial, sameCore_refl st, by simp⟩
    simp [processLabelVal, hc, jumpsOf]

/-! ## Structure of the scan loops -/

lemma argsLoop_spec (instr : Instruction) (pc start : Int) :
    ∀ (args : List ArgType) (ana : InstrArgsAnalyzer) (st : CodeAnalyzer)
      (jumps : List Int) (jo : Bool), ana.offset = st.offset →
    ∃ Δ st2,
      ((∃ jo2, argsLoop instr pc start args ana st jumps jo =
           ArgsOut.ok st2 (jumps ++ jumpsOf Δ) jo2) ∨
        argsLoop instr pc start args ana st jumps jo =
           ArgsOut.crashed st2 (jumps ++ jumpsOf Δ)) ∧
      st2.labels = st.labels ++ Δ ∧ FreshOver st.labels Δ ∧ SameCore st st2 ∧
      (∀ p ∈ Δ, p.1 ∈ decodedLabelVals args ana) ∧
      (st.offset = 0 → ∀ p ∈ Δ, 0 ≤ p.1)
  | [], ana, st, jumps, jo, hoffs => by
    refine ⟨[], st, Or.inl ⟨jo, ?_⟩, by simp, trivial, sameCore_refl st, by simp, by simp⟩
    simp [argsLoop, jumpsOf]
  | iarg :: rest, ana, st, jumps, jo, hoffs => by
    rcases hna : next_arg ana iarg with ⟨out, ana2⟩
    cases out with
    | err =>
      refine ⟨[], st, Or.inr ?_, by simp, trivial, sameCore_refl st, by simp, by simp⟩
      simp [argsLoop, hna, jumpsOf]
    | fail =>
      refine ⟨[], st, Or.inl ⟨jo, ?_⟩, by simp, trivial, sameCore_refl st, by simp, by simp⟩
      simp [argsLoop, hna, jumpsOf]
    | ok arg val hint =>
      obtain ⟨Δ1, stm, jo2, hpeq, hlab1, hfr1, hsc1, hkey1⟩ :=
        processLabelVal_spec st jumps jo instr pc start arg val
      have hanas := next_arg_ok_state hna
      have hoffs2 : ana2.offset = stm.offset := by
        rw [hanas.2.2.2.2, hoffs]
        exact hsc1.2.1.symm
      obtain ⟨Δ2, st2, hout, hlab2, hfr2, hsc2, hdec2, hnn2⟩ :=
        argsLoop_spec instr pc start rest ana2 stm (jumps ++ jumpsOf Δ1) jo2 hoffs2
      have hred : argsLoop instr pc start (iarg :: rest) ana st jumps jo =
          argsLoop instr pc start rest ana2 stm (jumps ++ jumpsOf Δ1) jo2 := by
        simp [argsLoop, hna, hpeq]
      have hdecEq : decodedLabelVals (iarg :: rest) ana =
          (if arg = ArgType.LABEL then val :: decodedLabelVals rest ana2
           else decodedLabelVals rest ana2) := by
        simp [decodedLabelVals, hna]
      refine ⟨Δ1 ++ Δ2, st2, ?_, ?_, ?_, sameCore_trans hsc1 hsc2, ?_, ?_⟩
      · rcases hout with ⟨jo3, he⟩ | he
        · exact Or.inl ⟨jo3, by rw [hred, he, jumpsOf_append, List.append_assoc]⟩
        · exact Or.inr (by rw [hred, he, jumpsOf_append, List.append_assoc])
      · rw [hlab2, hlab1, List.append_assoc]
      · exact freshOver_append Δ1 Δ2 st.labels hfr1 (hlab1 ▸ hfr2)
      · intro p hp
        rcases List.mem_append.mp hp with hp1 | hp2
        · obtain ⟨hpv, hargL⟩ := hkey1 p hp1
          rw [hdecEq, if_pos hargL, hpv]
          exact List.mem_cons_self _ _
        · rw [hdecEq]
          split
          · exact List.mem_cons_of_mem _ (hdec2 p hp2)
          · exact hdec2 p hp2
      · intro hoff0 p hp
        rcases List.mem_append.mp hp with hp1 | hp2
        · obtain ⟨hpv, hargL⟩ := hkey1 p hp1
          subst hargL
          rw [hpv]
          exact next_arg_ok_nonneg hna (by rw [hoffs, hoff0])
        · exact hnn2 (by rw [hsc1.2.1, hoff0]) p hp2

lemma pyGet_some_bounds {rom : List Nat} {i : Int} {b : Nat}
    (h : pyGet rom i = some b) :
    -(rom.length : Int) ≤ i ∧ i < (rom.length : Int) := by
  unfold pyGet at h
  split at h
  · rename_i h0
    have hlt : i.toNat < rom.length := by
      by_contra hge
      rw [List.get?_eq_none.mpr (by omega)] at h
      exact Option.noConfusion h
    omega
  · split at h
    · rename_i h0 h1
      omega
    · exact Option.noConfusion h

lemma scanLoop_spec (force : Bool) (start : Int) :
    ∀ (fuel : Nat) (pc : Int) (st : CodeAnalyzer) (jumps : List Int),
    ∃ Δ st2,
      ((∃ pc2, scanLoop force start fuel pc st jumps =
          ScanOut.done st2 (jumps ++ jumpsOf Δ) pc2) ∨
       scanLoop force start fuel pc st jumps = ScanOut.crashed st2 ∨
       scanLoop force start fuel pc st jumps = ScanOut.fuelOut st2) ∧
      st2.labels = st.labels ++ Δ ∧ FreshOver st.labels Δ ∧ SameCore st st2 ∧
      (∀ p ∈ Δ, ∃ j : Int, -(st.rom.length : Int) ≤ j ∧ j < (st.rom.length : Int) ∧
          p.1 ∈ labelValsAt st.rom st.offset j) ∧
      (st.offset = 0 → ∀ p ∈ Δ, 0 ≤ p.1) := by
  intro fuel
  induction fuel with
  | zero =>
    intro pc st jumps
    exact ⟨[], st, Or.inr (Or.inr rfl), by simp, trivial, sameCore_refl st,
      by simp, by simp⟩
  | succ fuel ih =>
    intro pc st jumps
    by_cases hlt : pc < (st.rom.length : Int)
    · cases hpg : pyGet st.rom pc with
      | none =>
        refine ⟨[], st, Or.inr (Or.inl ?_), by simp, trivial, sameCore_refl st,
          by simp, by simp⟩
        simp [scanLoop, hlt, hpg]
      | some code =>
        cases hgi : getInstr code with
        | none =>
          refine ⟨[], st, Or.inl ⟨pc, ?_⟩, by simp, trivial, sameCore_refl st,
            by simp, by simp⟩
          simp [scanLoop, hlt, hpg, hgi, jumpsOf]
        | some instr =>
          by_cases hae : instr.args.isEmpty
          · by_cases hjo : (instr.jump_out && !force) = true
            · refine ⟨[], st, Or.inl ⟨pc + (instr.length : Int), ?_⟩, by simp, trivial,
                sameCore_refl st, by simp, by simp⟩
              simp [scanLoop, hlt, hpg, hgi, hae, hjo, jumpsOf]
            · obtain ⟨Δ, st2, hout, hlab, hfr, hsc, hval, hnn⟩ :=
                ih (pc + (instr.length : Int)) st jumps
              refine ⟨Δ, st2, ?_, hlab, hfr, hsc, hval, hnn⟩
              have hred : scanLoop force start (fuel + 1) pc st jumps =
                  scanLoop force start fuel (pc + (instr.length : Int)) st jumps := by
                simp [scanLoop, hlt, hpg, hgi, hae, hjo]
              rw [hred]; exact hout
          · obtain ⟨Δ1, stm, hout1, hlab1, hfr1, hsc1, hdec1, hnn1⟩ :=
              argsLoop_spec instr pc start instr.args
                (mkArgsAnalyzer st.rom pc (pc + (instr.length : Int)) st.offset) st jumps
                (instr.jump_out && !force) rfl
            have hmem1 : ∀ p ∈ Δ1, ∃ j : Int, -(st.rom.length : Int) ≤ j ∧
                j < (st.rom.length : Int) ∧ p.1 ∈ labelValsAt st.rom st.offset j := by
              intro p hp
              refine ⟨pc, (pyGet_some_bounds hpg).1, hlt, ?_⟩
              have hlv : labelValsAt st.rom st.offset pc =
                  decodedLabelVals instr.args
                    (mkArgsAnalyzer st.rom pc (pc + (instr.length : Int)) st.offset) := by
                simp [labelValsAt, hpg, hgi, hae]
              rw [hlv]
              exact hdec1 p hp
            rcases hout1 with ⟨jo2, hok⟩ | hcr
            · by_cases hjo2 : jo2 = true
              · refine ⟨Δ1, stm, Or.inl ⟨pc + (instr.length : Int), ?_⟩, hlab1, hfr1,
                  hsc1, hmem1, hnn1⟩
                subst hjo2
                simp [scanLoop, hlt, hpg, hgi, hae, hok]
              · obtain ⟨Δ2, st2, hout2, hlab2, hfr2, hsc2, hval2, hnn2⟩ :=
                  ih (pc + (instr.length : Int)) stm (jumps ++ jumpsOf Δ1)
                have hred : scanLoop force start (fuel + 1) pc st jumps =
                    scanLoop force start fuel (pc + (instr.length : Int)) stm
                      (jumps ++ jumpsOf Δ1) := by
                  simp [scanLoop, hlt, hpg, hgi, hae, hok, hjo2]
                refine ⟨Δ1 ++ Δ2, st2, ?_, ?_, ?_, sameCore_trans hsc1 hsc2, ?_, ?_⟩
                · rcases hout2 with ⟨pc2, he⟩ | he | he
                  · exact Or.inl ⟨pc2, by rw [hred, he, jumpsOf_append, List.append_assoc]⟩
                  · exact Or.inr (Or.inl (by rw [hred, he]))
                  · exact Or.inr (Or.inr (by rw [hred, he]))
                · rw [hlab2, hlab1, List.append_assoc]
                · exact freshOver_append Δ1 Δ2 st.labels hfr1 (hlab1 ▸ hfr2)
                · intro p hp
                  rcases List.mem_append.mp hp with hp1 | hp2
                  · exact hmem1 p hp1
                  · have := hval2 p hp2
                    rwa [hsc1.1, hsc1.2.1] at this
                · intro hoff0 p hp
                  rcases List.mem_append.mp hp with hp1 | hp2
                  · exact hnn1 hoff0 p hp1
                  · exact hnn2 (by rw [hsc1.2.1, hoff0]) p hp2
            · refine ⟨Δ1, stm, Or.inr (Or.inl ?_), hlab1, hfr1, hsc1, hmem1, hnn1⟩
              simp [scanLoop, hlt, hpg, hgi, hae, hcr]
    · refine ⟨[], st, Or.inl ⟨pc, ?_⟩, by simp, trivial, sameCore_refl st,
        by simp, by simp⟩
      simp [scanLoop, hlt, jumpsOf]

lemma scanLoop_no_fuelOut (force : Bool) (start : Int) :
    ∀ (fuel : Nat) (pc : Int) (st : CodeAnalyzer) (jumps : List Int)
      (stf : CodeAnalyzer),
      ((st.rom.length : Int) - pc).toNat < fuel →
      scanLoop force start fuel pc st jumps ≠ ScanOut.fuelOut stf := by
  intro fuel
  induction fuel with
  | zero => intro pc st jumps stf hf; omega
  | succ fuel ih =>
    intro pc st jumps stf hf
    by_cases hlt : pc < (st.rom.length : Int)
    · cases hpg : pyGet st.rom pc with
      | none => simp [scanLoop, hlt, hpg]
      | some code =>
        cases hgi : getInstr code with
        | none => simp [scanLoop, hlt, hpg, hgi]
        | some instr =>
          have hlen := (getInstr_facts hgi).1
          by_cases hae : instr.args.isEmpty
          · by_cases hjo : (instr.jump_out && !force) = true
            · simp [scanLoop, hlt, hpg, hgi, hae, hjo]
            · have hred : scanLoop force start (fuel + 1) pc st jumps =
                  scanLoop force start fuel (pc + (instr.length : Int)) st jumps := by
                simp [scanLoop, hlt, hpg, hgi, hae, hjo]
              rw [hred]
              exact ih _ st jumps stf (by omega)
          · obtain ⟨Δ1, stm, hout1, hlab1, hfr1, hsc1, hdec1, hnn1⟩ :=
              argsLoop_spec instr pc start instr.args
                (mkArgsAnalyzer st.rom pc (pc + (instr.length : Int)) st.offset) st jumps
                (instr.jump_out && !force) rfl
            rcases hout1 with ⟨jo2, hok⟩ | hcr
            · by_cases hjo2 : jo2 = true
              · subst hjo2
                simp [scanLoop, hlt, hpg, hgi, hae, hok]
              · have hred : scanLoop force start (fuel + 1) pc st jumps =
                    scanLoop force start fuel (pc + (instr.length : Int)) stm
                      (jumps ++ jumpsOf Δ1) := by
                  simp [scanLoop, hlt, hpg, hgi, hae, hok, hjo2]
                rw [hred]
                refine ih _ stm _ stf ?_
                rw [hsc1.1]
                omega
            · simp [scanLoop, hlt, hpg, hgi, hae, hcr]
    · simp [scanLoop, hlt]

lemma analyze_jumps_spec (st : CodeAnalyzer) (start : Int) (q : List Int)
    (force : Bool) :
    ∃ Δ,
      (analyze_jumps st start q force).state.labels = st.labels ++ Δ ∧
      FreshOver st.labels Δ ∧
      SameCore st (analyze_jumps st start q force).state ∧
      (analyze_jumps st start q force).fuelOut = false ∧
      ((analyze_jumps st start q force).crashed = false →
        (analyze_jumps st start q force).jumps = jumpsOf Δ ∧
        (analyze_jumps st start q force).queue = q ++ jumpsOf Δ) ∧
      ((analyze_jumps st start q force).crashed = true →
        (analyze_jumps st start q force).queue = q) ∧
      (∀ p ∈ Δ, ∃ j : Int, -(st.rom.length : Int) ≤ j ∧ j < (st.rom.length : Int) ∧
        p.1 ∈ labelValsAt st.rom st.offset j) ∧
      (st.offset = 0 → ∀ p ∈ Δ, 0 ≤ p.1) := by
  obtain ⟨Δ, st2, hout, hlab, hfr, hsc, hval, hnn⟩ :=
    scanLoop_spec force start (scanFuel st start) start st []
  have hnf : ∀ stf, scanLoop force start (scanFuel st start) start st [] ≠
      ScanOut.fuelOut stf := by
    intro stf
    apply scanLoop_no_fuelOut
    show ((st.rom.length : Int) - start).toNat < st.rom.length + 1 + (-start).toNat
    omega
  rcases hout with ⟨pc2, hdone⟩ | hcr | hfo
  · refine ⟨Δ, ?_, hfr, ?_, ?_, ?_, ?_, hval, hnn⟩ <;>
      simp [analyze_jumps, hdone, hlab, hsc]
  · refine ⟨Δ, ?_, hfr, ?_, ?_, ?_, ?_, hval, hnn⟩ <;>
      simp [analyze_jumps, hcr, hlab, hsc]
  · exact absurd hfo (hnf st2)

/-! ## Claim theorems: first classification wins (C7) -/

/-- C7: an existing classification for an address — including the
`ADDR` (indirect-address-target) entries pre-seeded at construction —
is never overwritten by any later sequence of `analyze_jumps` calls:
whatever classification the table holds for an address before the
calls, it still holds afterwards. -/
theorem first_classification_wins
    (scans : List (Int × Bool)) (st : CodeAnalyzer) (a : Int) (t : LabelType)
    (h : st.labels.lookup a = some t) :
    ((scans.foldl (fun s p => (analyze_jumps s p.1 [] p.2).state) st).labels.lookup a)
      = some t := by
  induction scans generalizing st with
  | nil => simpa using h
  | cons sc rest ih =>
    simp only [List.foldl_cons]
    apply ih
    obtain ⟨Δ, hlab, -, -, -, -, -, -, -⟩ := analyze_jumps_spec st sc.1 [] sc.2
    rw [hlab]
    exact lookup_append_some h

/-- Witness for C7: address 5 is pre-seeded as an indirect-address
target, the ROM `ljmp 0x0005` would classify it as a jump, yet after
the scan the stored classification is still `ADDR`. -/
theorem first_classification_wins_witness :
    (([((0 : Int), false)]).foldl (fun s p => (analyze_jumps s p.1 [] p.2).state)
        (mkCodeAnalyzer [0x02, 0x00, 0x05] {} 0 false [] [5])).labels.lookup 5
      = some LabelType.ADDR :=
  first_classification_wins [(0, false)] (mkCodeAnalyzer [0x02, 0x00, 0x05] {} 0 false [] [5])
    5 LabelType.ADDR rfl

/-! ## Claim theorems: queue discipline (C8) -/

/-- C8 (counterexample): scanning `lcall 0x0002; lcall 0x0001; ret`
creates the `Jump` labels in the order 2, 1 — the embedding's `jumps`
list records that discovery order — but the source appends the members
of a Python `set` to the queue, and CPython iterates that set in hash
order: here both values hash to themselves and occupy slots 2 and 1 of
the 8-slot table, so iteration yields `[1, 2]`, not the discovery
order `[2, 1]`. -/
theorem queue_order_not_discovery_cex :
    (analyze_jumps (mkCodeAnalyzer [0x12, 0x00, 0x02, 0x12, 0x00, 0x01, 0x22] {} 0
        false [] []) 0 [] false).jumps = [2, 1] ∧
    pySetIter [2, 1] = [1, 2] ∧
    ([1, 2] : List Int) ≠ [2, 1] :=
  ⟨rfl, rfl, by decide⟩

/-- C8 (amended): a non-crashing `analyze_jumps` call appends to the
caller's entry queue exactly the addresses newly classified as `JUMP`
during that call — up to the iteration order of the source's `set`,
which is implementation-defined and in general differs from discovery
order: the appended block is a permutation of the new `JUMP` keys; an
address already present in the label table before its (re)discovery is
never appended, and no address is appended twice. -/
theorem scan_appends_new_jumps_up_to_order
    (st : CodeAnalyzer) (start : Int) (q : List Int) (force : Bool)
    (h : (analyze_jumps st start q force).crashed = false) :
    ∃ Δ app,
      (analyze_jumps st start q force).state.labels = st.labels ++ Δ ∧
      (analyze_jumps st start q force).queue = q ++ app ∧
      app.Perm (jumpsOf Δ) ∧
      (∀ p ∈ Δ, st.labels.lookup p.1 = Option.none) ∧
      (Δ.map Prod.fst).Nodup ∧
      app.Nodup := by
  obtain ⟨Δ, hlab, hfr, hsc, hfo, hok, hcr, hval, hnn⟩ := analyze_jumps_spec st start q force
  obtain ⟨hj, hq⟩ := hok h
  exact ⟨Δ, (analyze_jumps st start q force).jumps, hlab, by rw [hq, hj],
    List.Perm.of_eq hj, freshOver_mem Δ st.labels hfr,
    freshOver_keys_nodup Δ st.labels hfr,
    hj ▸ jumpsOf_nodup (freshOver_keys_nodup Δ st.labels hfr)⟩

/-- Witness for C8 (amended): scanning `lcall 0x0002; lcall 0x0001;
ret` with queue `[7]` appends a permutation of the two newly
discovered jump targets, without duplicates. -/
theorem scan_appends_new_jumps_up_to_order_witness :
    ∃ Δ app,
      (analyze_jumps (mkCodeAnalyzer [0x12, 0x00, 0x02, 0x12, 0x00, 0x01, 0x22] {} 0
          false [] []) 0 [7] false).state.labels =
        (mkCodeAnalyzer [0x12, 0x00, 0x02, 0x12, 0x00, 0x01, 0x22] {} 0
          false [] []).labels ++ Δ ∧
      (analyze_jumps (mkCodeAnalyzer [0x12, 0x00, 0x02, 0x12, 0x00, 0x01, 0x22] {} 0
          false [] []) 0 [7] false).queue = [7] ++ app ∧
      app.Perm (jumpsOf Δ) ∧
      (∀ p ∈ Δ, (mkCodeAnalyzer [0x12, 0x00, 0x02, 0x12, 0x00, 0x01, 0x22] {} 0
          false [] []).labels.lookup p.1 = Option.none) ∧
      (Δ.map Prod.fst).Nodup ∧
      app.Nodup :=
  scan_appends_new_jumps_up_to_order
    (mkCodeAnalyzer [0x12, 0x00, 0x02, 0x12, 0x00, 0x01, 0x22] {} 0 false [] [])
    0 [7] false rfl

/-! ## Counting the label table -/

lemma decodedLabelVals_len : ∀ (args : List ArgType) (ana : InstrArgsAnalyzer),
    (decodedLabelVals args ana).length ≤ (args.filter isLabelKind).length
  | [], _ => by simp [decodedLabelVals]
  | iarg :: rest, ana => by
    rcases hna : next_arg ana iarg with ⟨out, ana2⟩
    cases out with
    | err => simp [decodedLabelVals, hna]
    | fail => simp [decodedLabelVals, hna]
    | ok arg val hint =>
      have ih := decodedLabelVals_len rest ana2
      have hfil : (rest.filter isLabelKind).length ≤
          ((iarg :: rest).filter isLabelKind).length := by
        rw [List.filter_cons]
        split <;> simp
      by_cases hL : arg = ArgType.LABEL
      · subst hL
        have hk : isLabelKind iarg = true := next_arg_label_source hna
        have hred : decodedLabelVals (iarg :: rest) ana = val :: decodedLabelVals rest ana2 := by
          simp [decodedLabelVals, hna]
        rw [hred, List.filter_cons, if_pos hk]
        simp only [List.length_cons]
        omega
      · have hred : decodedLabelVals (iarg :: rest) ana = decodedLabelVals rest ana2 := by
          simp [decodedLabelVals, hna, hL]
        rw [hred]
        omega

lemma labelValsAt_len (rom : List Nat) (offset pc : Int) :
    (labelValsAt rom offset pc).length ≤ 1 := by
  rcases hpg : pyGet rom pc with _ | code
  · simp [labelValsAt, hpg]
  · rcases hgi : getInstr code with _ | instr
    · simp [labelValsAt, hpg, hgi]
    · by_cases hae : instr.args.isEmpty = true
      · simp [labelValsAt, hpg, hgi, hae]
      · have hred : labelValsAt rom offset pc = decodedLabelVals instr.args
            (mkArgsAnalyzer rom pc (pc + (instr.length : Int)) offset) := by
          simp [labelValsAt, hpg, hgi, hae]
        rw [hred]
        exact le_trans (decodedLabelVals_len _ _) (getInstr_facts hgi).2.2

lemma labelsOK_length_le {rom : List Nat} {offset : Int} {pres : List Int}
    {labels : List (Int × LabelType)} (h : LabelsOK rom offset pres labels) :
    labels.length ≤ pres.length + 2 * rom.length := by
  classical
  obtain ⟨hnd, hmem⟩ := h
  set B := (Finset.range (2 * rom.length)).biUnion
    (fun n => (labelValsAt rom offset ((n : Int) - rom.length)).toFinset) with hB
  have hsub : (labels.map Prod.fst).toFinset ⊆ pres.toFinset ∪ B := by
    intro x hx
    rw [List.mem_toFinset] at hx
    rcases List.mem_map.mp hx with ⟨p, hp, hpe⟩
    rcases hmem p hp with hpre | ⟨j, hlo, hhi, hv⟩
    · exact Finset.mem_union_left _ (by rw [List.mem_toFinset]; exact hpe ▸ hpre)
    · refine Finset.mem_union_right _ ?_
      rw [hB, Finset.mem_biUnion]
      refine ⟨(j + rom.length).toNat, Finset.mem_range.mpr (by omega), ?_⟩
      rw [List.mem_toFinset]
      have hj : (((j + (rom.length : Int)).toNat : Int) - rom.length) = j := by omega
      rw [hj]
      exact hpe ▸ hv
  have h0 : labels.length = (labels.map Prod.fst).toFinset.card := by
    rw [List.toFinset_card_of_nodup hnd, List.length_map]
  have h1 : (labels.map Prod.fst).toFinset.card ≤ (pres.toFinset ∪ B).card :=
    Finset.card_le_card hsub
  have h2 : (pres.toFinset ∪ B).card ≤ pres.toFinset.card + B.card :=
    Finset.card_union_le _ _
  have h3 : B.card ≤ ∑ n ∈ Finset.range (2 * rom.length),
      (labelValsAt rom offset ((n : Int) - rom.length)).toFinset.card := by
    rw [hB]; exact Finset.card_biUnion_le
  have h4 : ∑ n ∈ Finset.range (2 * rom.length),
      (labelValsAt rom offset ((n : Int) - rom.length)).toFinset.card ≤
      ∑ _n ∈ Finset.range (2 * rom.length), 1 :=
    Finset.sum_le_sum (fun n _ =>
      le_trans (labelValsAt rom offset ((n : Int) - rom.length)).toFinset_card_le
        (labelValsAt_len _ _ _))
  have h5 : ∑ _n ∈ Finset.range (2 * rom.length), 1 = 2 * rom.length := by simp
  have h6 : pres.toFinset.card ≤ pres.length := pres.toFinset_card_le
  omega

/-! ## The pre-seeded table -/

lemma dictInsert_mem {α : Type} {l : List (Int × α)} {k : Int} {v : α} {p : Int × α}
    (h : p ∈ dictInsert l k v) : p.1 = k ∨ p ∈ l := by
  induction l with
  | nil =>
    simp only [dictInsert, List.mem_singleton] at h
    left; rw [h]
  | cons q t ih =>
    rcases q with ⟨k1, v1⟩
    rw [dictInsert] at h
    split at h
    · rcases List.mem_cons.mp h with rfl | hp
      · left; rfl
      · right; exact List.mem_cons_of_mem _ hp
    · rcases List.mem_cons.mp h with rfl | hp
      · right; exact List.mem_cons_self _ _
      · rcases ih hp with h1 | h2
        · left; exact h1
        · right; exact List.mem_cons_of_mem _ h2

lemma dictInsert_keys_nodup {α : Type} {l : List (Int × α)} {k : Int} {v : α}
    (h : (l.map Prod.fst).Nodup) : ((dictInsert l k v).map Prod.fst).Nodup := by
  induction l with
  | nil => simp [dictInsert]
  | cons q t ih =>
    rcases q with ⟨k1, v1⟩
    rw [List.map_cons, List.nodup_cons] at h
    rw [dictInsert]
    split
    · rename_i hk
      subst hk
      rw [List.map_cons, List.nodup_cons]
      exact h
    · rename_i hk
      rw [List.map_cons, List.nodup_cons]
      refine ⟨?_, ih h.2⟩
      intro hmem
      rcases List.mem_map.mp hmem with ⟨p, hp, hpe⟩
      rcases dictInsert_mem hp with h1 | h2
      · exact hk (by rw [← h1, hpe])
      · exact h.1 (List.mem_map.mpr ⟨p, h2, hpe⟩)

lemma preseed_spec (indirect : List Int) :
    ∀ l : List (Int × LabelType), (l.map Prod.fst).Nodup →
      (((indirect.foldl (fun l a => dictInsert l a LabelType.ADDR) l).map Prod.fst).Nodup) ∧
      ∀ p ∈ indirect.foldl (fun l a => dictInsert l a LabelType.ADDR) l,
        p.1 ∈ indirect ∨ p ∈ l := by
  induction indirect with
  | nil => exact fun l h => ⟨h, fun p hp => Or.inr hp⟩
  | cons a rest ih =>
    intro l h
    simp only [List.foldl_cons]
    obtain ⟨h1, h2⟩ := ih (dictInsert l a LabelType.ADDR) (dictInsert_keys_nodup h)
    refine ⟨h1, fun p hp => ?_⟩
    rcases h2 p hp with hr | hl
    · exact Or.inl (List.mem_cons_of_mem _ hr)
    · rcases dictInsert_mem hl with hk | hm
      · exact Or.inl (by rw [hk]; exact List.mem_cons_self _ _)
      · exact Or.inr hm

lemma mk_labelsOK (rom : List Nat) (ad : Addresses) (offset : Int) (aic : Bool)
    (nrf indirect : List Int) :
    LabelsOK rom offset indirect (mkCodeAnalyzer rom ad offset aic nrf indirect).labels := by
  obtain ⟨h1, h2⟩ := preseed_spec indirect [] (by simp)
  refine ⟨h1, fun p hp => ?_⟩
  rcases h2 p hp with hr | hl
  · exact Or.inl hr
  · cases hl

/-! ## The worklist loop -/

lemma labelsOK_step {pres : List Int} {st : CodeAnalyzer} (start : Int) (q : List Int)
    (force : Bool) (h : LabelsOK st.rom st.offset pres st.labels) :
    LabelsOK st.rom st.offset pres (analyze_jumps st start q force).state.labels := by
  obtain ⟨Δ, hlab, hfr, hsc, -, -, -, hval, -⟩ := analyze_jumps_spec st start q force
  rw [hlab]
  refine ⟨nodup_keys_append Δ st.labels h.1 hfr, fun p hp => ?_⟩
  rcases List.mem_append.mp hp with h1 | h2
  · exact h.2 p h1
  · exact Or.inr (hval p h2)

lemma worklist_spec (pres : List Int) :
    ∀ (fuel : Nat) (st : CodeAnalyzer) (q app : List Int),
      LabelsOK st.rom st.offset pres st.labels →
      app.Nodup →
      (∀ a ∈ app, a ∈ st.labels.map Prod.fst) →
      q.length + (pres.length + 2 * st.rom.length) < fuel + st.labels.length →
      ∃ st2 app2,
        (worklist fuel st q app = WLOut.done st2 app2 ∨
         worklist fuel st q app = WLOut.crashed st2 app2) ∧
        st.labels.length ≤ st2.labels.length ∧
        LabelsOK st2.rom st2.offset pres st2.labels ∧
        st2.rom = st.rom ∧ st2.offset = st.offset ∧
        app2.Nodup ∧ (∃ ex, app2 = app ++ ex) := by
  intro fuel
  induction fuel with
  | zero =>
    intro st q app hok happ hsub hmeas
    have := labelsOK_length_le hok
    omega
  | succ fuel ih =>
    intro st q app hok happ hsub hmeas
    match q with
    | [] =>
      exact ⟨st, app, Or.inl rfl, le_refl _, hok, rfl, rfl, happ, [], by simp⟩
    | a :: rest =>
      obtain ⟨Δ, hlab, hfr, hsc, hfo, hokq, hcrq, hval, hnn⟩ :=
        analyze_jumps_spec st a rest false
      have hok2 : LabelsOK (analyze_jumps st a rest false).state.rom
          (analyze_jumps st a rest false).state.offset pres
          (analyze_jumps st a rest false).state.labels := by
        rw [hsc.1, hsc.2.1]
        exact labelsOK_step a rest false hok
      by_cases hcr : (analyze_jumps st a rest false).crashed = true
      · refine ⟨(analyze_jumps st a rest false).state, app, Or.inr ?_, ?_, hok2, hsc.1,
          hsc.2.1, happ, [], by simp⟩
        · show worklist (fuel + 1) st (a :: rest) app = _
          rw [worklist, if_pos hcr]
        · rw [hlab]; simp
      · have hcrf : (analyze_jumps st a rest false).crashed = false := by
          simpa using hcr
        obtain ⟨hj, hqq⟩ := hokq hcrf
        have hjsub : ∀ x ∈ jumpsOf Δ, x ∈ Δ.map Prod.fst := fun x hx => jumpsOf_subset hx
        have hfresh : ∀ x ∈ Δ.map Prod.fst, x ∉ st.labels.map Prod.fst := by
          intro x hx
          rcases List.mem_map.mp hx with ⟨p, hp, hpe⟩
          have := freshOver_mem Δ st.labels hfr p hp
          rw [lookup_eq_none_iff] at this
          exact hpe ▸ this
        have hred : worklist (fuel + 1) st (a :: rest) app =
            worklist fuel (analyze_jumps st a rest false).state
              (analyze_jumps st a rest false).queue
              (app ++ (analyze_jumps st a rest false).jumps) := by
          rw [worklist, if_neg (by simp [hcrf]), if_neg (by simp [hfo])]
        have hkeysΔ : (Δ.map Prod.fst).Nodup := freshOver_keys_nodup Δ st.labels hfr
        obtain ⟨st2, app2, hout, hlen2, hok3, hrom2, hoff2, hnd2, hex2⟩ :=
          ih (analyze_jumps st a rest false).state
            (analyze_jumps st a rest false).queue
            (app ++ (analyze_jumps st a rest false).jumps)
            hok2
            (by
              rw [hj]
              refine List.Nodup.append happ (jumpsOf_nodup hkeysΔ) ?_
              intro x hx hx2
              exact hfresh x (hjsub x hx2) (hsub x hx))
            (by
              rw [hj, hlab]
              intro x hx
              rw [List.map_append]
              rcases List.mem_append.mp hx with hx1 | hx2
              · exact List.mem_append.mpr (Or.inl (hsub x hx1))
              · exact List.mem_append.mpr (Or.inr (hjsub x hx2)))
            (by
              rw [hqq, hlab]
              have hδ : (jumpsOf Δ).length ≤ Δ.length := jumpsOf_length_le Δ
              rw [hsc.1]
              simp only [List.length_append, List.length_cons] at hmeas ⊢
              omega)
        refine ⟨st2, app2, ?_, ?_, hok3, ?_, ?_, hnd2, ?_⟩
        · rw [hred]; exact hout
        · rw [hlab] at hlen2
          simp only [List.length_append] at hlen2
          omega
        · rw [hrom2, hsc.1]
        · rw [hoff2, hsc.2.1]
        · obtain ⟨ex, hex⟩ := hex2
          exact ⟨(analyze_jumps st a rest false).jumps ++ ex, by
            rw [hex, List.append_assoc]⟩

/-! ## Claim theorems: worklist discipline (C3) -/

/-- C3 (amended): the label table never shrinks across `analyze_jumps`
calls; and for every ROM, load bias, entry list and pre-seeded
indirect-target list, the worklist loop (given fuel
`seeds + preseeds + 2 * ROM length + 1`) always reaches a terminal
outcome, with the final table bounded by the number of pre-seeded
indirect targets plus twice the ROM length (a scan decodes at most one
label destination per readable position, and the readable positions
are `-len ≤ pc < len`: a biased destination can be negative and is
then read through Python's negative indexing), and with no address
ever appended to the queue by scan calls twice. -/
theorem worklist_monotone_bounded_terminates
    (rom : List Nat) (ad : Addresses) (offset : Int) (nrf indirect seeds : List Int) :
    (∀ (st : CodeAnalyzer) (start : Int) (q : List Int) (force : Bool),
        st.labels.length ≤ (analyze_jumps st start q force).state.labels.length) ∧
    ∃ st2 app2,
      (worklist (seeds.length + indirect.length + 2 * rom.length + 1)
          (mkCodeAnalyzer rom ad offset false nrf indirect) seeds [] =
            WLOut.done st2 app2 ∨
       worklist (seeds.length + indirect.length + 2 * rom.length + 1)
          (mkCodeAnalyzer rom ad offset false nrf indirect) seeds [] =
            WLOut.crashed st2 app2) ∧
      (mkCodeAnalyzer rom ad offset false nrf indirect).labels.length ≤
        st2.labels.length ∧
      st2.labels.length ≤ indirect.length + 2 * rom.length ∧
      app2.Nodup := by
  constructor
  · intro st start q force
    obtain ⟨Δ, hlab, -, -, -, -, -, -, -⟩ := analyze_jumps_spec st start q force
    rw [hlab]
    simp
  · obtain ⟨st2, app2, hout, hlen, hok2, hrom2, hoff2, hnd2, hex2⟩ :=
      worklist_spec indirect (seeds.length + indirect.length + 2 * rom.length + 1)
        (mkCodeAnalyzer rom ad offset false nrf indirect) seeds []
        (mk_labelsOK rom ad offset false nrf indirect) (by simp) (by simp)
        (by simp only [mkCodeAnalyzer]; omega)
    refine ⟨st2, app2, hout, hlen, ?_, hnd2⟩
    have hb := labelsOK_length_le hok2
    rw [hrom2] at hb
    simpa only [mkCodeAnalyzer] using hb

/-! ## Claim theorems: auto-label naming (C9) -/

lemma dictInsert_lookup_self {α : Type} (d : List (Int × α)) (k : Int) (v : α) :
    (dictInsert d k v).lookup k = some v := by
  induction d with
  | nil => simp [dictInsert, List.lookup]
  | cons q t ih =>
    rcases q with ⟨k1, v1⟩
    rw [dictInsert]
    split
    · rw [lookup_cons_ite, if_pos rfl]
    · rename_i h
      rw [lookup_cons_ite, if_neg (fun hh => h hh.symm)]
      exact ih

lemma dictInsert_lookup_ne {α : Type} {d : List (Int × α)} {k a : Int} (v : α)
    (h : a ≠ k) : (dictInsert d k v).lookup a = d.lookup a := by
  induction d with
  | nil =>
    have hb : (a == k) = false := by simp [h]
    simp [dictInsert, List.lookup, hb]
  | cons q t ih =>
    rcases q with ⟨k1, v1⟩
    rw [dictInsert]
    split
    · rename_i hk
      subst hk
      rw [lookup_cons_ite, lookup_cons_ite, if_neg h, if_neg h]
    · rw [lookup_cons_ite, lookup_cons_ite]
      by_cases ha : a = k1
      · rw [if_pos ha, if_pos ha]
      · rw [if_neg ha, if_neg ha]
        exact ih

lemma autoLabels_persist (fwds : List (Int × Int)) :
    ∀ (ll : List (Int × LabelType)) (acc : List (Int × String)) (a : Int) (v : String),
      acc.lookup a = some v →
      (ll.foldl (autoLabelStep fwds) acc).lookup a = some v
  | [], _, _, _, h => h
  | q :: ll, acc, a, v, h => by
    rcases q with ⟨address, jump⟩
    simp only [List.foldl_cons]
    apply autoLabels_persist fwds ll
    simp only [autoLabelStep]
    split
    · exact h
    · by_cases hqa : address = a
      · rename_i hnone
        rw [hqa, h] at hnone
        simp at hnone
      · rw [dictInsert_lookup_ne _ (fun he => hqa he.symm)]
        exact h

lemma autoLabels_none (fwds : List (Int × Int)) :
    ∀ (ll : List (Int × LabelType)) (acc : List (Int × String)) (a : Int),
      acc.lookup a = Option.none → (∀ p ∈ ll, p.1 ≠ a) →
      (ll.foldl (autoLabelStep fwds) acc).lookup a = Option.none
  | [], _, _, h, _ => h
  | q :: ll, acc, a, h, hne => by
    rcases q with ⟨address, jump⟩
    simp only [List.foldl_cons]
    apply autoLabels_none fwds ll
    · simp only [autoLabelStep]
      split
      · exact h
      · have hna : address ≠ a := hne (address, jump) (List.mem_cons_self _ _)
        rw [dictInsert_lookup_ne _ (fun he => hna he.symm)]
        exact h
    · exact fun p hp => hne p (List.mem_cons_of_mem _ hp)

/-- C9 (amended): for a label-table entry `(a, t)` lacking an external
name, `give_auto_labels` resolves single-step: with no forwarding entry
the name is the kind tag plus `a`'s own address; with a forwarding
entry `a → b` the name is the alias prefix `fwd_%04X_` of `a` followed
either by a name `b` carries in the LABEL map (which persists to the
final map) or, when `b` is still unnamed at that moment, by the
aliasing entry's own kind tag and `b`'s address — no recursive chain
resolution. -/
theorem auto_label_single_step_resolution
    (st : CodeAnalyzer) (l1 l2 : List (Int × LabelType)) (a : Int) (t : LabelType)
    (hsplit : st.labels = l1 ++ (a, t) :: l2)
    (hfirst : l1.lookup a = Option.none)
    (hext : st.addresses.LABEL.lookup a = Option.none) :
    (st.forwards.lookup a = Option.none →
       (give_auto_labels st).addresses.LABEL.lookup a = some (auto_label t.value a)) ∧
    (∀ b, st.forwards.lookup a = some b →
       ∃ s, (give_auto_labels st).addresses.LABEL.lookup a =
               some (("fwd_" ++ pyHex04 a ++ "_") ++ s) ∧
            (s = auto_label t.value b ∨
             (give_auto_labels st).addresses.LABEL.lookup b = some s)) := by
  have hmap : (give_auto_labels st).addresses.LABEL =
      st.labels.foldl (autoLabelStep st.forwards) st.addresses.LABEL := by
    simp [give_auto_labels]
  have hne1 : ∀ p ∈ l1, p.1 ≠ a := by
    intro p hp he
    exact (lookup_eq_none_iff.mp hfirst) (List.mem_map.mpr ⟨p, hp, he⟩)
  have hacc1 : ((l1.foldl (autoLabelStep st.forwards) st.addresses.LABEL).lookup a)
      = Option.none :=
    autoLabels_none st.forwards l1 st.addresses.LABEL a hext hne1
  have hfold : st.labels.foldl (autoLabelStep st.forwards) st.addresses.LABEL =
      l2.foldl (autoLabelStep st.forwards)
        (autoLabelStep st.forwards
          (l1.foldl (autoLabelStep st.forwards) st.addresses.LABEL) (a, t)) := by
    rw [hsplit, List.foldl_append, List.foldl_cons]
  constructor
  · intro hnf
    have hstep : autoLabelStep st.forwards
        (l1.foldl (autoLabelStep st.forwards) st.addresses.LABEL) (a, t) =
        dictInsert (l1.foldl (autoLabelStep st.forwards) st.addresses.LABEL) a
          (auto_label t.value a) := by
      simp only [autoLabelStep]
      rw [if_neg (by simp [hacc1]), hnf]
    rw [hmap, hfold, hstep]
    exact autoLabels_persist st.forwards l2 _ a _ (dictInsert_lookup_self _ a _)
  · intro b hb
    cases haccb : (l1.foldl (autoLabelStep st.forwards) st.addresses.LABEL).lookup b with
    | none =>
      refine ⟨auto_label t.value b, ?_, Or.inl rfl⟩
      have hstep : autoLabelStep st.forwards
          (l1.foldl (autoLabelStep st.forwards) st.addresses.LABEL) (a, t) =
          dictInsert (l1.foldl (autoLabelStep st.forwards) st.addresses.LABEL) a
            (("fwd_" ++ pyHex04 a ++ "_") ++ auto_label t.value b) := by
        simp only [autoLabelStep]
        rw [if_neg (by simp [hacc1])]
        simp only [hb, haccb]
      rw [hmap, hfold, hstep]
      exact autoLabels_persist st.forwards l2 _ a _ (dictInsert_lookup_self _ a _)
    | some sb =>
      have hba : b ≠ a := by
        intro he
        rw [he, hacc1] at haccb
        cases haccb
      have hstep : autoLabelStep st.forwards
          (l1.foldl (autoLabelStep st.forwards) st.addresses.LABEL) (a, t) =
          dictInsert (l1.foldl (autoLabelStep st.forwards) st.addresses.LABEL) a
            (("fwd_" ++ pyHex04 a ++ "_") ++ sb) := by
        simp only [autoLabelStep]
        rw [if_neg (by simp [hacc1])]
        simp only [hb, haccb]
      refine ⟨sb, ?_, Or.inr ?_⟩
      · rw [hmap, hfold, hstep]
        exact autoLabels_persist st.forwards l2 _ a _ (dictInsert_lookup_self _ a _)
      · rw [hmap, hfold, hstep]
        refine autoLabels_persist st.forwards l2 _ b _ ?_
        rw [dictInsert_lookup_ne _ hba]
        exact haccb

/-- Witness for C9 (amended), on the trampoline chain ROM: address 3
forwards to 6, still unnamed at processing time, so 3 is named with
the alias prefix and the one-step fallback name of 6. -/
theorem auto_label_single_step_resolution_witness :
    ((worklist 20 (mkCodeAnalyzer chainRom {} 0 false [] []) [0] []).state.forwards.lookup 3 =
        some 6) ∧
    ∃ s, (give_auto_labels
            (worklist 20 (mkCodeAnalyzer chainRom {} 0 false [] [])
              [0] []).state).addresses.LABEL.lookup 3 =
           some (("fwd_" ++ pyHex04 3 ++ "_") ++ s) ∧
         (s = auto_label LabelType.JUMP.value 6 ∨
          (give_auto_labels
            (worklist 20 (mkCodeAnalyzer chainRom {} 0 false [] [])
              [0] []).state).addresses.LABEL.lookup 6 = some s) := by
  refine ⟨rfl, ?_⟩
  exact (auto_label_single_step_resolution
    (worklist 20 (mkCodeAnalyzer chainRom {} 0 false [] []) [0] []).state
    [] [(6, LabelType.JUMP), (9, LabelType.JUMP)] 3 LabelType.JUMP
    rfl rfl rfl).2 6 rfl

end Disasm51
